import Mathlib

/-!
# Typelib: the `tlb` exporter (`lang/tlb/export.cc`) and the `genom` plugin

A shallow embedding of the XML exporter of Typelib and of the string
escaping it relies on, and of the `genom` import plugin (`tools/genom.cc`),
followed by the properties established about them.

Conventions of the embedding:

* a `std::string` is a `List Char`; string literals of the source are written
  as Lean string literals followed by `.toList`;
* `string::npos` is `none`;
* an `ostream&` is the list of characters written so far, threaded through the
  functions that write to it;
* `size_t` and `int` values are `Nat` and `Int`; `stream << n` writes their
  decimal representation (default stream flags);
* a `Type const&` held inside another type (indirection target, field type) is
  a `TypeRef` into a `TypeGraph`, so that cyclic type graphs are representable.
-/

namespace Typelib

/-! ## Strings -/

/-- Position of the first character of `s` that is one of `chars`
(`std::string::find_first_of`), `none` when there is none (`string::npos`). -/
def find_first_of (s chars : List Char) : Option Nat :=
  match s with
  | [] => none
  | c :: rest =>
    if c ∈ chars then some 0 else (find_first_of rest chars).map (fun p => p + 1)

/-- The call `s.replace(pos, len, str)` of `std::string` for `pos ≤ s.size()`:
the `len` characters from `pos` are replaced by `str`. -/
def replace (s : List Char) (pos len : Nat) (str : List Char) : List Char :=
  s.take pos ++ str ++ s.drop (pos + len)

/-- Number of `<` and `>` characters of a string: the measure under which the
loop of `xmlEscape` terminates. -/
def specials (s : List Char) : Nat := s.countP (fun c => c = '<' ∨ c = '>')

/-- Decimal output of an unsigned integer, `stream << n` for `size_t`. -/
def showNat (n : Nat) : List Char := Nat.toDigits 10 n

/-- Decimal output of a signed integer, `stream << i` for `int`. -/
def showInt : Int → List Char
  | Int.ofNat n => Nat.toDigits 10 n
  | Int.negSucc n => '-' :: Nat.toDigits 10 (n + 1)

theorem find_first_of_some (s chars : List Char) (pos : Nat)
    (h : find_first_of s chars = some pos) :
    ∃ c, s = s.take pos ++ c :: s.drop (pos + 1) ∧ c ∈ chars ∧ (∀ d ∈ s.take pos, d ∉ chars)
      ∧ s[pos]? = some c := by
  induction s generalizing pos with
  | nil => simp [find_first_of] at h
  | cons a rest ih =>
    simp only [find_first_of] at h
    split at h
    · rename_i hc
      cases h
      exact ⟨a, by simp, hc, by simp, by simp⟩
    · rename_i hc
      cases hq : find_first_of rest chars with
      | none => simp [hq] at h
      | some q =>
        simp [hq] at h
        subst h
        obtain ⟨c, h1, h2, h3, h4⟩ := ih q hq
        refine ⟨c, ?_, h2, ?_, by simpa using h4⟩
        · simp only [List.take_succ_cons, List.drop_succ_cons, List.cons_append]
          rw [← h1]
        · intro d hd
          simp only [List.take_succ_cons, List.mem_cons] at hd
          rcases hd with rfl | hd
          · exact hc
          · exact h3 d hd

theorem find_first_of_none (s chars : List Char) (h : find_first_of s chars = none) :
    ∀ d ∈ s, d ∉ chars := by
  induction s with
  | nil => simp
  | cons a rest ih =>
    simp only [find_first_of] at h
    split at h
    · cases h
    · rename_i hc
      have hr : find_first_of rest chars = none := by
        cases hq : find_first_of rest chars with
        | none => rfl
        | some q => simp [hq] at h
      intro d hd
      rcases List.mem_cons.mp hd with rfl | hd
      · exact hc
      · exact ih hr d hd

/-- One iteration of the escaping loop removes one `<` or `>`: replacing the
character found by `find_first_of` by a text without `<` and `>` lowers the
number of such characters. -/
theorem specials_replace (result : List Char) (pos : Nat) (str : List Char)
    (h : find_first_of result "<>".toList = some pos) (hs : specials str = 0) :
    specials (replace result pos 1 str) < specials result := by
  obtain ⟨c, h1, h2, -, -⟩ := find_first_of_some result _ pos h
  have hc : c = '<' ∨ c = '>' := by simpa using h2
  have e : specials result
      = specials (result.take pos) + (1 + specials (result.drop (pos + 1))) := by
    conv_lhs => rw [h1]
    simp [specials, List.countP_cons, hc]
    omega
  rw [e]
  simp only [replace, specials, List.countP_append] at hs ⊢
  omega

/-- The function `xmlEscape` of `export.cc`. `loop result` is the `while` loop
entered with the current value of `result`; `pos` is recomputed by
`find_first_of` at the head of every iteration, as the source does before the
loop and at the end of its body. The last branch is the iteration in which
neither `if` of the body fires and `result` is left as it is. -/
def xmlEscape (source : List Char) : List Char :=
  loop source
where
  /-- The `while (pos != string::npos)` loop of `xmlEscape`. -/
  loop (result : List Char) : List Char :=
    match h : find_first_of result "<>".toList with
    | none => result
    | some pos =>
      if h1 : result[pos]? = some '<' then
        loop (replace result pos 1 "&lt;".toList)
      else if h2 : result[pos]? = some '>' then
        loop (replace result pos 1 "&gt;".toList)
      else
        loop result
  termination_by specials result
  decreasing_by
    · exact specials_replace result pos _ h (by decide)
    · exact specials_replace result pos _ h (by decide)
    · exfalso
      obtain ⟨c, -, h3, -, h4⟩ := find_first_of_some result _ pos h
      have hc : c = '<' ∨ c = '>' := by simpa using h3
      rcases hc with rfl | rfl
      · exact h1 h4
      · exact h2 h4

/-- The substitution applied to one character by a single left-to-right pass:
`<` becomes `&lt;`, `>` becomes `&gt;`, any other character is kept. -/
def escapeChar (c : Char) : List Char :=
  if c = '<' then "&lt;".toList else if c = '>' then "&gt;".toList else [c]

/-- Single-pass character substitution of a string, the reading of escaping
that `xmlEscape` is compared with. -/
def escapeAll (s : List Char) : List Char := s.flatMap escapeChar

/-- The body of the `while` loop of `xmlEscape` for the position `pos` that
`find_first_of` gave: the two `if` statements on `result[pos]`. -/
def xmlEscapeBody (result : List Char) (pos : Nat) : List Char :=
  if result[pos]? = some '<' then replace result pos 1 "&lt;".toList
  else if result[pos]? = some '>' then replace result pos 1 "&gt;".toList
  else result

/-- The loop of `xmlEscape` run for at most `fuel` iterations: the value of
`result` at the exit of the loop together with the number of iterations that
were run, `none` when the loop has not exited after `fuel` iterations. -/
def xmlEscapeRun : Nat → List Char → Option (List Char × Nat)
  | 0, result =>
    match find_first_of result "<>".toList with
    | none => some (result, 0)
    | some _ => none
  | fuel + 1, result =>
    match find_first_of result "<>".toList with
    | none => some (result, 0)
    | some pos =>
      (xmlEscapeRun fuel (xmlEscapeBody result pos)).map (fun r => (r.1, r.2 + 1))

/-- Unescaping: one left-to-right pass that replaces each occurrence of `&lt;`
by `<` and each occurrence of `&gt;` by `>`. It is not part of the exporter; it
is the inverse operation that the escaping is checked against. -/
def xmlUnescape : List Char → List Char
  | [] => []
  | c0 :: c1 :: c2 :: c3 :: rest =>
    if c0 = '&' ∧ c1 = 'l' ∧ c2 = 't' ∧ c3 = ';' then '<' :: xmlUnescape rest
    else if c0 = '&' ∧ c1 = 'g' ∧ c2 = 't' ∧ c3 = ';' then '>' :: xmlUnescape rest
    else c0 :: xmlUnescape (c1 :: c2 :: c3 :: rest)
  | c0 :: rest => c0 :: xmlUnescape rest

/-! ## The type model

The classes of `typemodel.hh` are used by the exporter through their accessors
only (`getName`, `getSize`, `getIndirection`, `getFields`, ...); the structures
below hold what those accessors return. -/

/-- Modelled from the spec: the enumeration `Numeric::NumericCategory`, which is
declared in a header that is not among the sources. The spec gives a numeric
type one of three categories, signed integer, unsigned integer and floating
point; they are the three enumerators that `getStringCategory` names. An
object of a C++ enumeration type can also hold a value that is none of the
enumerators (the result of a cast): `other value` is such an object. -/
inductive NumericCategory where
  | SInt
  | UInt
  | Float
  | other (value : Int)
  deriving DecidableEq, Repr

/-- A reference to a type of the graph (`Type const&`). -/
abbrev TypeRef := Nat

/-- Modelled from the spec: `Enum::ValueMap`, whose declaration is in a header
that is not among the sources. The spec describes it as a mapping from
enumerator symbol (unique within the enum) to integer value that is ordered by
insertion: `entries` lists the pairs in the order `begin()` to `end()` visits
them, which is the order in which they were inserted. -/
structure ValueMap where
  entries : List (List Char × Int)
  deriving DecidableEq, Repr

namespace ValueMap

/-- The table without enumerators. -/
def nil : ValueMap := ⟨[]⟩

/-- Whether the table has no enumerator, `values.empty()`. -/
def empty (m : ValueMap) : Bool := m.entries.isEmpty

/-- Modelled from the spec: insertion of an enumerator. Symbols are unique, so
a symbol already present leaves the table as it is; a new symbol is placed
after the ones inserted before it. -/
def insert (m : ValueMap) (symbol : List Char) (value : Int) : ValueMap :=
  if symbol ∈ m.entries.map Prod.fst then m else ⟨m.entries ++ [(symbol, value)]⟩

end ValueMap

/-- A field of a compound: `getName()`, `getType()` and `getOffset()`. -/
structure Field where
  m_name : List Char
  m_type : TypeRef
  m_offset : Nat
  deriving DecidableEq, Repr

/-- What a type holds besides its name and size, by class of the hierarchy
(`Type::Category`): the numeric category, the value table of an enum, the field
list of a compound, the indirection target of a pointer, array or container,
the dimension of an array, the kind of a container. -/
inductive Variant where
  | NullType
  | Numeric (category : NumericCategory)
  | Enum (values : ValueMap)
  | Compound (fields : List Field)
  | Pointer (indirection : TypeRef)
  | Array (indirection : TypeRef) (dimension : Nat)
  | Container (indirection : TypeRef) (kind : List Char)
  | OpaqueType
  deriving DecidableEq, Repr

/-- A type object: name, size and the data of its class. The name `Type` of
the source is a keyword of Lean. -/
structure Type_ where
  m_name : List Char
  m_size : Nat
  variant : Variant
  deriving DecidableEq, Repr

/-- Accessor `Type::getName()`. -/
def Type_.getName (t : Type_) : List Char := t.m_name

/-- Accessor `Type::getSize()`. -/
def Type_.getSize (t : Type_) : Nat := t.m_size

/-- The objects that references point to: `g r` is the type behind the
reference `r`. A graph may be cyclic (a compound with a field whose type is a
pointer to the compound). -/
abbrev TypeGraph := TypeRef → Type_

/-- What `TlbExport::save` reads from a `RegistryIterator`: `getName()`, the
name of the registry entry; `getSource()`, its source id; `isAlias()`; and the
type it points to (`*type`, `type->`), which for an alias is the type that the
alias stands for. -/
structure RegistryIterator where
  m_name : List Char
  m_source : List Char
  m_alias : Bool
  m_type : Type_
  deriving DecidableEq, Repr

namespace RegistryIterator

/-- Accessor `RegistryIterator::getName()`. -/
def getName (it : RegistryIterator) : List Char := it.m_name

/-- Accessor `RegistryIterator::getSource()`. -/
def getSource (it : RegistryIterator) : List Char := it.m_source

/-- Accessor `RegistryIterator::isAlias()`. -/
def isAlias (it : RegistryIterator) : Bool := it.m_alias

/-- Dereference, `*type`. -/
def deref (it : RegistryIterator) : Type_ := it.m_type

end RegistryIterator

/-! ## The exporting visitor -/

/-- The members of `TlbExportVisitor`. `m_stream` is the content of the stream
the visitor writes to. -/
structure TlbExportVisitor where
  m_stream : List Char
  m_indent : List Char
  m_source_id : List Char
  deriving DecidableEq, Repr

/-- The helper `Indent`: it remembers the indentation at its construction. -/
structure Indent where
  m_save : List Char

/-- The function `getStringCategory`. The `switch` has a case for each of the
three enumerators and no default; a value that matches no case falls through
to `return 0`, the null pointer, which is `none`. -/
def getStringCategory (category : NumericCategory) : Option (List Char) :=
  match category with
  | NumericCategory.SInt => some "sint".toList
  | NumericCategory.UInt => some "uint".toList
  | NumericCategory.Float => some "float".toList
  | NumericCategory.other _ => none

namespace TlbExportVisitor

/-- Output to the stream of the visitor, `m_stream << text`. -/
def put (v : TlbExportVisitor) (text : List Char) : TlbExportVisitor :=
  { v with m_stream := v.m_stream ++ text }

/-- Constructor of `Indent`: saves the indentation and adds two spaces. -/
def indent (v : TlbExportVisitor) : Indent × TlbExportVisitor :=
  (⟨v.m_indent⟩, { v with m_indent := v.m_indent ++ "  ".toList })

/-- Destructor of `Indent`: restores the saved indentation. -/
def unindent (v : TlbExportVisitor) (indenter : Indent) : TlbExportVisitor :=
  { v with m_indent := indenter.m_save }

/-- The method `TlbExportVisitor::emitSourceID`. -/
def emitSourceID (v : TlbExportVisitor) : List Char :=
  if ¬ v.m_source_id.isEmpty then
    "source_id=\"".toList ++ xmlEscape v.m_source_id ++ "\"".toList
  else []

/-- The method `visit_(OpaqueType const&)`. -/
def visit_OpaqueType (v : TlbExportVisitor) (type : Type_) : Bool × TlbExportVisitor :=
  (true, v.put ("<opaque name=\"".toList ++ xmlEscape type.getName ++ "\" size=\"".toList
    ++ showNat type.getSize ++ "\" ".toList ++ v.emitSourceID ++ " />\n".toList))

/-- The method `visit_(Compound const&, Field const&)`. -/
def visit_Field (g : TypeGraph) (v : TlbExportVisitor) (_type : Type_) (field : Field) :
    Bool × TlbExportVisitor :=
  (true, v.put (v.m_indent
    ++ "<field name=\"".toList ++ field.m_name ++ "\"".toList
    ++ " type=\"".toList ++ xmlEscape (g field.m_type).getName ++ "\"".toList
    ++ " offset=\"".toList ++ showNat field.m_offset ++ "\"/>\n".toList))

/-- Modelled from the spec: the base method `TypeVisitor::visit_(Compound const&)`
of `typevisitor.hh`, which is not among the sources. It invokes the field-level
handler for every field in declaration order; its result is the conjunction of
the results of the handler. -/
def visitFields (g : TypeGraph) (v : TlbExportVisitor) (type : Type_) :
    List Field → Bool × TlbExportVisitor
  | [] => (true, v)
  | field :: rest =>
    let r := visit_Field g v type field
    let r2 := visitFields g r.2 type rest
    (r.1 && r2.1, r2.2)

/-- The method `visit_(Compound const&)`. -/
def visit_Compound (g : TypeGraph) (v : TlbExportVisitor) (type : Type_)
    (fields : List Field) : Bool × TlbExportVisitor :=
  let v1 := v.put ("<compound name=\"".toList ++ xmlEscape type.getName
    ++ "\" size=\"".toList ++ showNat type.getSize ++ "\" ".toList ++ v.emitSourceID
    ++ ">\n".toList)
  let (indenter, v2) := v1.indent
  let v3 := (visitFields g v2 type fields).2
  let v4 := v3.unindent indenter
  (true, v4.put (v4.m_indent ++ "</compound>".toList))

/-- The method `visit_(Numeric const&)`. A null category string writes
nothing. -/
def visit_Numeric (v : TlbExportVisitor) (type : Type_) (category : NumericCategory) :
    Bool × TlbExportVisitor :=
  (true, v.put ("<numeric name=\"".toList ++ type.getName ++ "\" ".toList
    ++ "category=\"".toList ++ (getStringCategory category).getD [] ++ "\" ".toList
    ++ "size=\"".toList ++ showNat type.getSize ++ "\" ".toList ++ v.emitSourceID
    ++ "/>".toList))

/-- The method `visit_(NullType const&)`. -/
def visit_NullType (v : TlbExportVisitor) (type : Type_) : Bool × TlbExportVisitor :=
  (true, v.put ("<null ".toList ++ " name=\"".toList ++ type.getName ++ "\" ".toList
    ++ v.emitSourceID ++ "/>".toList))

/-- The function `indirect`: the `name` and `of` attributes of a pointer, array
or container, written to `stream`. -/
def indirect (g : TypeGraph) (stream : List Char) (type : Type_) (indirection : TypeRef) :
    List Char :=
  stream ++ " name=\"".toList ++ xmlEscape type.getName
    ++ "\" of=\"".toList ++ xmlEscape (g indirection).getName ++ "\"".toList

/-- The method `visit_(Pointer const&)`. -/
def visit_Pointer (g : TypeGraph) (v : TlbExportVisitor) (type : Type_)
    (indirection : TypeRef) : Bool × TlbExportVisitor :=
  let v1 := v.put "<pointer ".toList
  let v2 := { v1 with m_stream := indirect g v1.m_stream type indirection }
  (true, v2.put (" ".toList ++ v2.emitSourceID ++ "/>".toList))

/-- The method `visit_(Array const&)`. -/
def visit_Array (g : TypeGraph) (v : TlbExportVisitor) (type : Type_)
    (indirection : TypeRef) (dimension : Nat) : Bool × TlbExportVisitor :=
  let v1 := v.put "<array ".toList
  let v2 := { v1 with m_stream := indirect g v1.m_stream type indirection }
  (true, v2.put (" dimension=\"".toList ++ showNat dimension ++ "\" ".toList
    ++ v2.emitSourceID ++ "/>".toList))

/-- The method `visit_(Container const&)`. -/
def visit_Container (g : TypeGraph) (v : TlbExportVisitor) (type : Type_)
    (indirection : TypeRef) (kind : List Char) : Bool × TlbExportVisitor :=
  let v1 := v.put "<container ".toList
  let v2 := { v1 with m_stream := indirect g v1.m_stream type indirection }
  (true, v2.put (" size=\"".toList ++ showNat type.getSize ++ "\"".toList
    ++ " kind=\"".toList ++ xmlEscape kind ++ "\"".toList
    ++ " ".toList ++ v2.emitSourceID ++ "/>".toList))

/-- The `for` loop of `visit_(Enum const&)` over the value table: one `value`
element per enumerator, from `begin()` to `end()`. -/
def putValues (v : TlbExportVisitor) : List (List Char × Int) → TlbExportVisitor
  | [] => v
  | it :: rest =>
    putValues (v.put (v.m_indent ++ "<value symbol=\"".toList ++ it.1
      ++ "\" value=\"".toList ++ showInt it.2 ++ "\"/>\n".toList)) rest

/-- The method `visit_(Enum const&)`. -/
def visit_Enum (v : TlbExportVisitor) (type : Type_) (values : ValueMap) :
    Bool × TlbExportVisitor :=
  if values.empty then
    (true, v.put ("<enum name=\"".toList ++ type.getName ++ "\" ".toList
      ++ v.emitSourceID ++ "/>".toList))
  else
    let v1 := v.put ("<enum name=\"".toList ++ type.getName ++ "\" ".toList
      ++ v.emitSourceID ++ ">\n".toList)
    let (indenter, v2) := v1.indent
    let v3 := putValues v2 values.entries
    let v4 := v3.unindent indenter
    (true, v4.put (v4.m_indent ++ "</enum>".toList))

/-- Modelled from the spec: `TypeVisitor::apply` of `typevisitor.hh`, which is
not among the sources. It dispatches on the class of the type to the `visit_`
method of that class, one method per variant of the closed set. -/
def apply (g : TypeGraph) (v : TlbExportVisitor) (type : Type_) : Bool × TlbExportVisitor :=
  match type.variant with
  | Variant.NullType => v.visit_NullType type
  | Variant.Numeric category => v.visit_Numeric type category
  | Variant.Enum values => v.visit_Enum type values
  | Variant.Compound fields => v.visit_Compound g type fields
  | Variant.Pointer indirection => v.visit_Pointer g type indirection
  | Variant.Array indirection dimension => v.visit_Array g type indirection dimension
  | Variant.Container indirection kind => v.visit_Container g type indirection kind
  | Variant.OpaqueType => v.visit_OpaqueType type

end TlbExportVisitor

/-! ## The exporter -/

/-- What the exporter sees of a `Typelib::Registry`: its entries, in the order
in which the registry enumerates them. -/
abbrev Registry := List RegistryIterator

namespace TlbExport

/-- The method `TlbExport::begin`: the header of the document. The registry
is not used. -/
def begin (stream : List Char) (_registry : Registry) : List Char :=
  stream ++ "<?xml version=\"1.0\"?>\n<typelib>\n".toList

/-- The method `TlbExport::end`: the footer of the document. The registry is
not used. The name `end` of the source is a keyword of Lean. -/
def end_ (stream : List Char) (_registry : Registry) : List Char :=
  stream ++ "</typelib>\n".toList

/-- The method `TlbExport::save`: the result and the stream after the call. -/
def save (g : TypeGraph) (stream : List Char) (type : RegistryIterator) : Bool × List Char :=
  if type.isAlias then
    (true, stream ++ "  <alias name=\"".toList ++ xmlEscape type.getName
      ++ "\" source=\"".toList ++ xmlEscape type.deref.getName ++ "\"/>\n".toList)
  else
    let stream1 := stream ++ "  ".toList
    let exporter : TlbExportVisitor := ⟨stream1, "  ".toList, type.getSource⟩
    let exporter2 := (exporter.apply g type.deref).2
    (true, exporter2.m_stream ++ "\n".toList)

/-- The record of an entry: what `save` writes to an empty stream. -/
def record (g : TypeGraph) (type : RegistryIterator) : List Char :=
  (save g [] type).2

/-- Modelled from the spec: the export of a whole registry, whose driver is
not among the sources. The header is emitted once, then `save` is called on
each entry in enumeration order, then the footer is emitted once. -/
def exportRegistry (g : TypeGraph) (stream : List Char) (registry : Registry) : List Char :=
  end_ (registry.foldl (fun out type => (save g out type).2) (begin stream registry)) registry

end TlbExport

/-! ## The `genom` import plugin (`tools/genom.cc`) -/

/-- The tokens that `boost::tokenizer< char_separator<char> >` yields for the
separator `char_separator<char>(sep)`: the delimiter is dropped and, by the
default policy of the library, so are empty tokens. `go rest token` scans
`rest` with `token` the characters of the token read so far. -/
def tokenize (sep : Char) (s : List Char) : List (List Char) :=
  go s []
where
  /-- The scan of the tokenizer. -/
  go : List Char → List Char → List (List Char)
    | [], token => if token = [] then [] else [token]
    | c :: rest, token =>
      if c = sep then
        if token = [] then go rest [] else token :: go rest []
      else go rest (token ++ [c])

/-- What may be thrown inside the `try` block of `GenomPlugin::apply`: a
`Typelib::RegistryException` with the text of `toString()`, another
`std::exception` with the text of `typeid(e).name()`, or an object of a type
that neither handler catches. -/
inductive Exception where
  | RegistryException (text : List Char)
  | StdException (name : List Char)
  | Other
  deriving DecidableEq, Repr

/-- How a call ends: it returns a value or leaves by an exception. -/
inductive Outcome (α : Type) where
  | returned (value : α)
  | thrown (e : Exception)
  deriving DecidableEq, Repr

/-- What `GenomPlugin::apply` acts on: the registry behind its pointer
argument and the two standard streams. -/
structure GenomState (R : Type) where
  registry : R
  cout : List Char
  cerr : List Char

namespace GenomPlugin

/-- The list `cppargs` built by `GenomPlugin::apply` from the value of the
`include` option. -/
def cppargs (includes : List Char) : List (List Char) :=
  if ¬ includes.isEmpty then
    (tokenize ':' includes).map (fun it => "-I".toList ++ it)
  else []

/-- The method `GenomPlugin::apply`. The collaborators that are not among the
sources are parameters: `preprocess`; `getCount` of the registry; and `read`,
which stands for the construction of the `GenomModule` reader on the registry
followed by `reader.read(i_file)` and gives the exception thrown, if any, and
the registry after the call. `includes` is `options.getString("include")`. The
difference of the counts is written as a signed number. -/
def apply {R : Type} (preprocess : List Char → List (List Char) → List Char)
    (getCount : R → Nat) (read : List Char → R → Option Exception × R)
    (remaining : List (List Char)) (includes : List Char) (s : GenomState R) :
    Outcome Bool × GenomState R :=
  match remaining with
  | [] =>
    (Outcome.returned false,
      { s with cerr := s.cerr ++ "No file found on command line. Aborting\n".toList })
  | file :: _ =>
    let i_file := preprocess file (cppargs includes)
    if i_file.isEmpty then
      (Outcome.returned false,
        { s with cerr := s.cerr ++ "Could not preprocess ".toList ++ file
            ++ ", aborting\n".toList })
    else
      let old_count := getCount s.registry
      match read i_file s.registry with
      | (none, registry) =>
        (Outcome.returned true,
          { s with
            registry := registry
            cout := s.cout ++ "Found ".toList
              ++ showInt ((getCount registry : Int) - (old_count : Int))
              ++ " types in ".toList ++ file ++ "\n".toList })
      | (some (Exception.RegistryException text), registry) =>
        (Outcome.returned false,
          { s with
            registry := registry
            cerr := s.cerr ++ "Error in type management: ".toList ++ text ++ "\n".toList })
      | (some (Exception.StdException name), registry) =>
        (Outcome.returned false,
          { s with
            registry := registry
            cerr := s.cerr ++ "Error parsing file ".toList ++ file ++ ":\n\t".toList
              ++ name ++ "\n".toList })
      | (some Exception.Other, registry) =>
        (Outcome.thrown Exception.Other, { s with registry := registry })

end GenomPlugin

/-! ## Predicates and example data of the statements -/

/-- A string holds an entity when `&lt;` or `&gt;` occurs in it. -/
def hasEntity (s : List Char) : Prop :=
  "&lt;".toList <:+: s ∨ "&gt;".toList <:+: s

instance (s : List Char) : Decidable (hasEntity s) := by
  unfold hasEntity; infer_instance

/-- Two types, each in its own graph, agree on what the exporter reads of
them: their name, their own attributes, and the names of the types they refer
to (indirection target, field types), field by field for compounds. Nothing is
asked of the referenced types beyond their names. -/
def sameByName (g1 : TypeGraph) (t1 : Type_) (g2 : TypeGraph) (t2 : Type_) : Prop :=
  t1.getName = t2.getName ∧
  match t1.variant, t2.variant with
  | Variant.Pointer r1, Variant.Pointer r2 => (g1 r1).getName = (g2 r2).getName
  | Variant.Array r1 d1, Variant.Array r2 d2 =>
    d1 = d2 ∧ (g1 r1).getName = (g2 r2).getName
  | Variant.Container r1 k1, Variant.Container r2 k2 =>
    t1.getSize = t2.getSize ∧ k1 = k2 ∧ (g1 r1).getName = (g2 r2).getName
  | Variant.Compound fields1, Variant.Compound fields2 =>
    t1.getSize = t2.getSize ∧
    List.Forall₂ (fun f1 f2 : Field => f1.m_name = f2.m_name ∧ f1.m_offset = f2.m_offset
      ∧ (g1 f1.m_type).getName = (g2 f2.m_type).getName) fields1 fields2
  | _, _ => False

/-- Example graph with a cycle: the compound `Node` (reference 0) has a field
whose type is `NodePtr` (reference 1), the pointer to `Node`. -/
def listGraph : TypeGraph := fun r =>
  if r = 0 then
    ⟨"Node".toList, 16, Variant.Compound [⟨"value".toList, 2, 0⟩, ⟨"next".toList, 1, 8⟩]⟩
  else if r = 1 then ⟨"NodePtr".toList, 8, Variant.Pointer 0⟩
  else ⟨"int".toList, 4, Variant.Numeric NumericCategory.SInt⟩

/-- Example graph without a cycle, in which the names of `listGraph` stand for
types of another structure. -/
def flatGraph : TypeGraph := fun r =>
  if r = 0 then ⟨"Node".toList, 1, Variant.OpaqueType⟩
  else if r = 1 then ⟨"NodePtr".toList, 2, Variant.Numeric NumericCategory.UInt⟩
  else ⟨"int".toList, 3, Variant.NullType⟩

/-- Example preprocessor: the preprocessed file of `file` is `file.i`, and
there is none for the file with the empty name. -/
def suffixPreprocess (file : List Char) (_args : List (List Char)) : List Char :=
  if file = [] then [] else file ++ ".i".toList

/-- Example reader on a registry that is its own count: it inserts three
types and throws nothing. -/
def threeTypesRead (_file : List Char) (registry : Nat) : Option Exception × Nat :=
  (none, registry + 3)

/-- A text is one line indented by exactly two spaces: it starts with two
spaces followed by `<`, holds one newline, and the newline is its last
character. -/
def oneLine (text : List Char) : Prop :=
  "  <".toList <+: text ∧ text.count '\n' = 1 ∧ text.getLast? = some '\n'

/-- Example graph: every reference leads to a type named `missing`. -/
def missingGraph : TypeGraph :=
  fun _ => ⟨"missing".toList, 0, Variant.NullType⟩

/-- Example registry: its only entry is the pointer `p`. -/
def pointerRegistry : Registry :=
  [⟨"p".toList, [], false, ⟨"p".toList, 8, Variant.Pointer 0⟩⟩]

/-- Example graph: every reference leads to the numeric type `int`. -/
def intGraph : TypeGraph :=
  fun _ => ⟨"int".toList, 4, Variant.Numeric NumericCategory.SInt⟩

/-! # Properties -/

/-! ## Escaping -/

theorem escapeAll_of_clean (s : List Char) (h : ∀ d ∈ s, d ∉ "<>".toList) :
    escapeAll s = s := by
  induction s with
  | nil => rfl
  | cons a rest ih =>
    have ha : a ≠ '<' ∧ a ≠ '>' := by simpa using h a (List.mem_cons_self _ _)
    have hr := ih (fun d hd => h d (List.mem_cons_of_mem _ hd))
    simp only [escapeAll, List.flatMap_cons] at hr ⊢
    rw [hr]
    simp [escapeChar, ha.1, ha.2]

theorem escapeAll_append (a b : List Char) :
    escapeAll (a ++ b) = escapeAll a ++ escapeAll b := by
  simp [escapeAll, List.flatMap_append]

theorem escapeAll_cons (c : Char) (s : List Char) :
    escapeAll (c :: s) = escapeChar c ++ escapeAll s := by
  simp [escapeAll, List.flatMap_cons]

theorem loop_eq_escapeAll (n : Nat) : ∀ result : List Char, specials result = n →
    xmlEscape.loop result = escapeAll result := by
  induction n using Nat.strong_induction_on with
  | _ n ih =>
    intro result hn
    rw [xmlEscape.loop]
    split
    · rename_i h
      exact (escapeAll_of_clean result (find_first_of_none _ _ h)).symm
    · rename_i pos h
      obtain ⟨c, h1, h2, h3, h4⟩ := find_first_of_some result _ pos h
      have hc : c = '<' ∨ c = '>' := by simpa using h2
      have key : ∀ str, specials str = 0 → escapeAll str = str → escapeChar c = str →
          xmlEscape.loop (replace result pos 1 str) = escapeAll result := by
        intro str hs hstr hcs
        rw [ih _ (by rw [← hn]; exact specials_replace result pos str h hs) _ rfl]
        conv_rhs => rw [h1]
        simp only [replace, escapeAll_append, escapeAll_cons]
        rw [hstr, hcs]
        simp
      rcases hc with rfl | rfl
      · rw [dif_pos h4]
        exact key _ (by decide) (by decide) (by decide)
      · have hne : ¬ (result[pos]? = some '<') := by rw [h4]; decide
        rw [dif_neg hne, dif_pos h4]
        exact key _ (by decide) (by decide) (by decide)

/-- The loop of `xmlEscape` computes the single-pass substitution. -/
theorem xmlEscape_eq_escapeAll (s : List Char) : xmlEscape s = escapeAll s :=
  loop_eq_escapeAll _ s rfl

theorem not_mem_escapeAll (s : List Char) :
    '<' ∉ escapeAll s ∧ '>' ∉ escapeAll s := by
  induction s with
  | nil => simp [escapeAll]
  | cons a rest ih =>
    rw [escapeAll_cons]
    simp only [List.mem_append, not_or]
    refine ⟨⟨?_, ih.1⟩, ?_, ih.2⟩
    · unfold escapeChar
      split
      · decide
      · split
        · decide
        · rename_i h1 h2
          simpa using fun h => h1 h.symm
    · unfold escapeChar
      split
      · decide
      · split
        · decide
        · rename_i h1 h2
          simpa using fun h => h2 h.symm

/-- C1. `xmlEscape` is the single-pass character substitution: `<` becomes
`&lt;`, `>` becomes `&gt;`, every other character (`&` included) is copied
unchanged, in the original order; `vector<int>` becomes `vector&lt;int&gt;`. -/
theorem xmlEscape_single_pass :
    (∀ s : List Char, xmlEscape s
      = s.flatMap (fun c =>
          if c = '<' then ['&', 'l', 't', ';']
          else if c = '>' then ['&', 'g', 't', ';'] else [c]))
    ∧ xmlEscape "a&b".toList = "a&b".toList
    ∧ xmlEscape "vector<int>".toList = "vector&lt;int&gt;".toList := by
  refine ⟨fun s => ?_, ?_, ?_⟩
  · rw [xmlEscape_eq_escapeAll]; rfl
  · rw [xmlEscape_eq_escapeAll]; decide
  · rw [xmlEscape_eq_escapeAll]; decide

/-- C2. The result of `xmlEscape` contains neither `<` nor `>`. -/
theorem xmlEscape_no_angle (s : List Char) :
    '<' ∉ xmlEscape s ∧ '>' ∉ xmlEscape s := by
  rw [xmlEscape_eq_escapeAll]
  exact not_mem_escapeAll s

/-! ## Unescaping -/

theorem xmlUnescape_cons_of_ne (c : Char) (l : List Char) (hc : c ≠ '&') :
    xmlUnescape (c :: l) = c :: xmlUnescape l := by
  match l with
  | [] => simp [xmlUnescape]
  | [_] => simp [xmlUnescape]
  | [_, _] => simp [xmlUnescape]
  | _ :: _ :: _ :: _ => simp [xmlUnescape, hc]

theorem xmlUnescape_amp (l : List Char)
    (h1 : ¬ "lt;".toList <+: l) (h2 : ¬ "gt;".toList <+: l) :
    xmlUnescape ('&' :: l) = '&' :: xmlUnescape l := by
  match l with
  | [] => simp [xmlUnescape]
  | [_] => simp [xmlUnescape]
  | [_, _] => simp [xmlUnescape]
  | c1 :: c2 :: c3 :: rest =>
    have e1 : ¬ (c1 = 'l' ∧ c2 = 't' ∧ c3 = ';') := by
      rintro ⟨rfl, rfl, rfl⟩
      exact h1 (by simp)
    have e2 : ¬ (c1 = 'g' ∧ c2 = 't' ∧ c3 = ';') := by
      rintro ⟨rfl, rfl, rfl⟩
      exact h2 (by simp)
    simp [xmlUnescape, e1, e2]

theorem xmlUnescape_amp_lt (l : List Char) (h : "lt;".toList <+: l) :
    xmlUnescape ('&' :: l) = '<' :: xmlUnescape (l.drop 3) := by
  obtain ⟨t, rfl⟩ := h
  simp [xmlUnescape]

theorem xmlUnescape_amp_gt (l : List Char) (h : "gt;".toList <+: l) :
    xmlUnescape ('&' :: l) = '>' :: xmlUnescape (l.drop 3) := by
  obtain ⟨t, rfl⟩ := h
  simp [xmlUnescape]

/-- A text made of characters other than `<`, `>` and `&` starts an escaped
string exactly when it starts the string itself. -/
theorem prefix_escapeAll_iff (p : List Char)
    (hp : ∀ a ∈ p, a ≠ '<' ∧ a ≠ '>' ∧ a ≠ '&') (l : List Char) :
    p <+: escapeAll l ↔ p <+: l := by
  induction p generalizing l with
  | nil => simp
  | cons a p ih =>
    obtain ⟨ha1, ha2, ha3⟩ := hp a (List.mem_cons_self _ _)
    have hp2 : ∀ b ∈ p, b ≠ '<' ∧ b ≠ '>' ∧ b ≠ '&' :=
      fun b hb => hp b (List.mem_cons_of_mem _ hb)
    cases l with
    | nil => simp [escapeAll]
    | cons c r =>
      rw [escapeAll_cons]
      by_cases h1 : c = '<'
      · subst h1
        simp [escapeChar, List.cons_prefix_cons, ha1, ha3]
      · by_cases h2 : c = '>'
        · subst h2
          simp [escapeChar, List.cons_prefix_cons, ha2, ha3]
        · simp only [escapeChar, h1, h2, if_false, List.singleton_append,
            List.cons_prefix_cons]
          rw [ih hp2]

/-- Unescaping an escaped string gives the string back exactly when the string
holds no entity. -/
theorem xmlUnescape_escapeAll_iff (s : List Char) :
    xmlUnescape (escapeAll s) = s ↔ ¬ hasEntity s := by
  induction s with
  | nil => simp [escapeAll, xmlUnescape, hasEntity]
  | cons c r ih =>
    have hent : hasEntity (c :: r) ↔
        (c = '&' ∧ ("lt;".toList <+: r ∨ "gt;".toList <+: r)) ∨ hasEntity r := by
      unfold hasEntity
      rw [List.infix_cons_iff, List.infix_cons_iff]
      have e1 : "&lt;".toList <+: c :: r ↔ c = '&' ∧ "lt;".toList <+: r := by
        show '&' :: "lt;".toList <+: c :: r ↔ _
        rw [List.cons_prefix_cons]
        constructor
        · rintro ⟨rfl, h⟩; exact ⟨rfl, h⟩
        · rintro ⟨rfl, h⟩; exact ⟨rfl, h⟩
      have e2 : "&gt;".toList <+: c :: r ↔ c = '&' ∧ "gt;".toList <+: r := by
        show '&' :: "gt;".toList <+: c :: r ↔ _
        rw [List.cons_prefix_cons]
        constructor
        · rintro ⟨rfl, h⟩; exact ⟨rfl, h⟩
        · rintro ⟨rfl, h⟩; exact ⟨rfl, h⟩
      rw [e1, e2]
      tauto
    rw [hent, escapeAll_cons]
    by_cases h1 : c = '<'
    · subst h1
      have : xmlUnescape (escapeChar '<' ++ escapeAll r) = '<' :: xmlUnescape (escapeAll r) := by
        show xmlUnescape ('&' :: ("lt;".toList ++ escapeAll r)) = _
        rw [xmlUnescape_amp_lt _ (by simp)]
        simp
      rw [this]
      simp [ih]
    · by_cases h2 : c = '>'
      · subst h2
        have : xmlUnescape (escapeChar '>' ++ escapeAll r)
            = '>' :: xmlUnescape (escapeAll r) := by
          show xmlUnescape ('&' :: ("gt;".toList ++ escapeAll r)) = _
          rw [xmlUnescape_amp_gt _ (by simp)]
          simp
        rw [this]
        simp [ih]
      · have hesc : escapeChar c ++ escapeAll r = c :: escapeAll r := by
          simp [escapeChar, h1, h2]
        rw [hesc]
        by_cases h3 : c = '&'
        · subst h3
          have pl := prefix_escapeAll_iff "lt;".toList (by decide) r
          have pg := prefix_escapeAll_iff "gt;".toList (by decide) r
          by_cases hl : "lt;".toList <+: r
          · rw [xmlUnescape_amp_lt _ (pl.mpr hl)]
            constructor
            · intro h; exact absurd (List.cons.inj h).1 (by decide)
            · intro h; exact absurd (Or.inl ⟨rfl, Or.inl hl⟩) h
          · by_cases hg : "gt;".toList <+: r
            · rw [xmlUnescape_amp_gt _ (pg.mpr hg)]
              constructor
              · intro h; exact absurd (List.cons.inj h).1 (by decide)
              · intro h; exact absurd (Or.inl ⟨rfl, Or.inr hg⟩) h
            · rw [xmlUnescape_amp _ (fun h => hl (pl.mp h)) (fun h => hg (pg.mp h))]
              have e : ('&' :: xmlUnescape (escapeAll r) = '&' :: r)
                  ↔ xmlUnescape (escapeAll r) = r := by simp
              rw [e, ih]
              tauto
        · rw [xmlUnescape_cons_of_ne c _ h3]
          simp [h3, ih]

/-! ## The stream after a visit -/

namespace TlbExportVisitor

theorem put_put (v : TlbExportVisitor) (a b : List Char) :
    (v.put a).put b = v.put (a ++ b) := by
  simp [put, List.append_assoc]

theorem put_nil (v : TlbExportVisitor) : v.put [] = v := by
  simp [put]

/-- The field loop writes the field elements one after the other, each with
the indentation current at the call, and changes nothing else. -/
theorem visitFields_eq (g : TypeGraph) (type : Type_) (fields : List Field) :
    ∀ v : TlbExportVisitor, visitFields g v type fields
      = (true, v.put (fields.flatMap (fun field =>
          v.m_indent ++ "<field name=\"".toList ++ field.m_name ++ "\"".toList
          ++ " type=\"".toList ++ xmlEscape (g field.m_type).getName ++ "\"".toList
          ++ " offset=\"".toList ++ showNat field.m_offset ++ "\"/>\n".toList))) := by
  induction fields with
  | nil => intro v; simp [visitFields, put_nil]
  | cons f rest ih =>
    intro v
    simp only [visitFields, ih, visit_Field, put_put, List.flatMap_cons, Bool.and_self]
    rfl

/-- The value loop writes the value elements one after the other, each with
the indentation current at the call, and changes nothing else. -/
theorem putValues_eq (values : List (List Char × Int)) :
    ∀ v : TlbExportVisitor, putValues v values
      = v.put (values.flatMap (fun it =>
          v.m_indent ++ "<value symbol=\"".toList ++ it.1
          ++ "\" value=\"".toList ++ showInt it.2 ++ "\"/>\n".toList)) := by
  induction values with
  | nil => intro v; simp [putValues, put_nil]
  | cons it rest ih =>
    intro v
    simp only [putValues, ih, put_put, List.flatMap_cons]
    rfl

end TlbExportVisitor

/-- The provenance attribute written for a source id: nothing for the empty
source id, `source_id="E"` with `E` the escaped source id otherwise. -/
theorem emitSourceID_eq (stream indent sid : List Char) :
    (TlbExportVisitor.mk stream indent sid).emitSourceID
      = if sid = [] then [] else "source_id=\"".toList ++ xmlEscape sid ++ "\"".toList := by
  cases sid <;> simp [TlbExportVisitor.emitSourceID]

/-! ## The text written by `save`, variant by variant -/

namespace TlbExport

theorem shape_alias (g : TypeGraph) (stream : List Char) (it : RegistryIterator)
    (h : it.isAlias = true) :
    save g stream it = (true, stream ++ "  <alias name=\"".toList ++ xmlEscape it.getName
      ++ "\" source=\"".toList ++ xmlEscape it.deref.getName ++ "\"/>\n".toList) := by
  simp [save, h]

theorem shape_opaqueType (g : TypeGraph) (stream n sid name : List Char) (size : Nat) :
    save g stream ⟨n, sid, false, ⟨name, size, Variant.OpaqueType⟩⟩
      = (true, stream ++ "  ".toList ++ "<opaque name=\"".toList ++ xmlEscape name
          ++ "\" size=\"".toList ++ showNat size ++ "\" ".toList
          ++ (if sid = [] then [] else "source_id=\"".toList ++ xmlEscape sid ++ "\"".toList)
          ++ " />\n".toList ++ "\n".toList) := by
  cases sid <;>
  simp [save, RegistryIterator.isAlias, RegistryIterator.deref,
    RegistryIterator.getSource, TlbExportVisitor.apply, TlbExportVisitor.visit_OpaqueType,
    TlbExportVisitor.put, Type_.getName, Type_.getSize, TlbExportVisitor.emitSourceID]

theorem shape_numeric (g : TypeGraph) (stream n sid name : List Char) (size : Nat)
    (category : NumericCategory) :
    save g stream ⟨n, sid, false, ⟨name, size, Variant.Numeric category⟩⟩
      = (true, stream ++ "  ".toList ++ "<numeric name=\"".toList ++ name ++ "\" ".toList
          ++ "category=\"".toList ++ (getStringCategory category).getD [] ++ "\" ".toList
          ++ "size=\"".toList ++ showNat size ++ "\" ".toList
          ++ (if sid = [] then [] else "source_id=\"".toList ++ xmlEscape sid ++ "\"".toList)
          ++ "/>".toList ++ "\n".toList) := by
  cases sid <;>
  simp [save, RegistryIterator.isAlias, RegistryIterator.deref,
    RegistryIterator.getSource, TlbExportVisitor.apply, TlbExportVisitor.visit_Numeric,
    TlbExportVisitor.put, Type_.getName, Type_.getSize, TlbExportVisitor.emitSourceID]

theorem shape_null (g : TypeGraph) (stream n sid name : List Char) (size : Nat) :
    save g stream ⟨n, sid, false, ⟨name, size, Variant.NullType⟩⟩
      = (true, stream ++ "  ".toList ++ "<null ".toList ++ " name=\"".toList ++ name
          ++ "\" ".toList
          ++ (if sid = [] then [] else "source_id=\"".toList ++ xmlEscape sid ++ "\"".toList)
          ++ "/>".toList ++ "\n".toList) := by
  cases sid <;>
  simp [save, RegistryIterator.isAlias, RegistryIterator.deref,
    RegistryIterator.getSource, TlbExportVisitor.apply, TlbExportVisitor.visit_NullType,
    TlbExportVisitor.put, Type_.getName, TlbExportVisitor.emitSourceID]

theorem shape_pointer (g : TypeGraph) (stream n sid name : List Char) (size : Nat)
    (target : TypeRef) :
    save g stream ⟨n, sid, false, ⟨name, size, Variant.Pointer target⟩⟩
      = (true, stream ++ "  ".toList ++ "<pointer ".toList ++ " name=\"".toList
          ++ xmlEscape name ++ "\" of=\"".toList ++ xmlEscape (g target).getName
          ++ "\"".toList ++ " ".toList
          ++ (if sid = [] then [] else "source_id=\"".toList ++ xmlEscape sid ++ "\"".toList)
          ++ "/>".toList ++ "\n".toList) := by
  cases sid <;>
  simp [save, RegistryIterator.isAlias, RegistryIterator.deref,
    RegistryIterator.getSource, TlbExportVisitor.apply, TlbExportVisitor.visit_Pointer,
    TlbExportVisitor.indirect, TlbExportVisitor.put, Type_.getName,
    TlbExportVisitor.emitSourceID]

theorem shape_array (g : TypeGraph) (stream n sid name : List Char) (size : Nat)
    (target : TypeRef) (dimension : Nat) :
    save g stream ⟨n, sid, false, ⟨name, size, Variant.Array target dimension⟩⟩
      = (true, stream ++ "  ".toList ++ "<array ".toList ++ " name=\"".toList
          ++ xmlEscape name ++ "\" of=\"".toList ++ xmlEscape (g target).getName
          ++ "\"".toList ++ " dimension=\"".toList ++ showNat dimension ++ "\" ".toList
          ++ (if sid = [] then [] else "source_id=\"".toList ++ xmlEscape sid ++ "\"".toList)
          ++ "/>".toList ++ "\n".toList) := by
  cases sid <;>
  simp [save, RegistryIterator.isAlias, RegistryIterator.deref,
    RegistryIterator.getSource, TlbExportVisitor.apply, TlbExportVisitor.visit_Array,
    TlbExportVisitor.indirect, TlbExportVisitor.put, Type_.getName,
    TlbExportVisitor.emitSourceID]

theorem shape_container (g : TypeGraph) (stream n sid name : List Char) (size : Nat)
    (target : TypeRef) (kind : List Char) :
    save g stream ⟨n, sid, false, ⟨name, size, Variant.Container target kind⟩⟩
      = (true, stream ++ "  ".toList ++ "<container ".toList ++ " name=\"".toList
          ++ xmlEscape name ++ "\" of=\"".toList ++ xmlEscape (g target).getName
          ++ "\"".toList ++ " size=\"".toList ++ showNat size ++ "\"".toList
          ++ " kind=\"".toList ++ xmlEscape kind ++ "\"".toList ++ " ".toList
          ++ (if sid = [] then [] else "source_id=\"".toList ++ xmlEscape sid ++ "\"".toList)
          ++ "/>".toList ++ "\n".toList) := by
  cases sid <;>
  simp [save, RegistryIterator.isAlias, RegistryIterator.deref,
    RegistryIterator.getSource, TlbExportVisitor.apply, TlbExportVisitor.visit_Container,
    TlbExportVisitor.indirect, TlbExportVisitor.put, Type_.getName, Type_.getSize,
    TlbExportVisitor.emitSourceID]

theorem shape_compound (g : TypeGraph) (stream n sid name : List Char) (size : Nat)
    (fields : List Field) :
    save g stream ⟨n, sid, false, ⟨name, size, Variant.Compound fields⟩⟩
      = (true, stream ++ "  ".toList ++ "<compound name=\"".toList ++ xmlEscape name
          ++ "\" size=\"".toList ++ showNat size ++ "\" ".toList
          ++ (if sid = [] then [] else "source_id=\"".toList ++ xmlEscape sid ++ "\"".toList)
          ++ ">\n".toList
          ++ fields.flatMap (fun field =>
              "    ".toList ++ "<field name=\"".toList ++ field.m_name ++ "\"".toList
              ++ " type=\"".toList ++ xmlEscape (g field.m_type).getName ++ "\"".toList
              ++ " offset=\"".toList ++ showNat field.m_offset ++ "\"/>\n".toList)
          ++ "  ".toList ++ "</compound>".toList ++ "\n".toList) := by
  cases sid <;>
  simp [save, RegistryIterator.isAlias, RegistryIterator.deref,
    RegistryIterator.getSource, TlbExportVisitor.apply, TlbExportVisitor.visit_Compound,
    TlbExportVisitor.visitFields_eq, TlbExportVisitor.put, TlbExportVisitor.indent,
    TlbExportVisitor.unindent, Type_.getName, Type_.getSize, TlbExportVisitor.emitSourceID]

theorem shape_enum_empty (g : TypeGraph) (stream n sid name : List Char) (size : Nat)
    (values : ValueMap) (h : values.empty = true) :
    save g stream ⟨n, sid, false, ⟨name, size, Variant.Enum values⟩⟩
      = (true, stream ++ "  ".toList ++ "<enum name=\"".toList ++ name ++ "\" ".toList
          ++ (if sid = [] then [] else "source_id=\"".toList ++ xmlEscape sid ++ "\"".toList)
          ++ "/>".toList ++ "\n".toList) := by
  cases sid <;>
  simp [save, RegistryIterator.isAlias, RegistryIterator.deref,
    RegistryIterator.getSource, TlbExportVisitor.apply, TlbExportVisitor.visit_Enum, h,
    TlbExportVisitor.put, Type_.getName, TlbExportVisitor.emitSourceID]

theorem shape_enum_values (g : TypeGraph) (stream n sid name : List Char) (size : Nat)
    (values : ValueMap) (h : values.empty = false) :
    save g stream ⟨n, sid, false, ⟨name, size, Variant.Enum values⟩⟩
      = (true, stream ++ "  ".toList ++ "<enum name=\"".toList ++ name ++ "\" ".toList
          ++ (if sid = [] then [] else "source_id=\"".toList ++ xmlEscape sid ++ "\"".toList)
          ++ ">\n".toList
          ++ values.entries.flatMap (fun it =>
              "    ".toList ++ "<value symbol=\"".toList ++ it.1
              ++ "\" value=\"".toList ++ showInt it.2 ++ "\"/>\n".toList)
          ++ "  ".toList ++ "</enum>".toList ++ "\n".toList) := by
  cases sid <;>
  simp [save, RegistryIterator.isAlias, RegistryIterator.deref,
    RegistryIterator.getSource, TlbExportVisitor.apply, TlbExportVisitor.visit_Enum, h,
    TlbExportVisitor.putValues_eq, TlbExportVisitor.put, TlbExportVisitor.indent,
    TlbExportVisitor.unindent, Type_.getName, TlbExportVisitor.emitSourceID]

end TlbExport

/-! ## Characters of the pieces of a record -/

theorem digitChar_mem (d : Nat) (h : d < 10) : Nat.digitChar d ∈ "0123456789".toList := by
  interval_cases d <;> decide

theorem toDigitsCore_mem (fuel : Nat) : ∀ (n : Nat) (ds : List Char) (c : Char),
    c ∈ Nat.toDigitsCore 10 fuel n ds → c ∈ "0123456789".toList ∨ c ∈ ds := by
  induction fuel with
  | zero => intro n ds c h; simp [Nat.toDigitsCore] at h; exact Or.inr h
  | succ fuel ih =>
    intro n ds c h
    simp only [Nat.toDigitsCore] at h
    split at h
    · rcases List.mem_cons.mp h with rfl | h
      · exact Or.inl (digitChar_mem _ (Nat.mod_lt _ (by decide)))
      · exact Or.inr h
    · rcases ih _ _ _ h with h | h
      · exact Or.inl h
      · rcases List.mem_cons.mp h with rfl | h
        · exact Or.inl (digitChar_mem _ (Nat.mod_lt _ (by decide)))
        · exact Or.inr h

/-- The decimal output of a number consists of digits. -/
theorem showNat_mem (n : Nat) (c : Char) (h : c ∈ showNat n) : c ∈ "0123456789".toList := by
  rcases toDigitsCore_mem _ _ _ _ h with h | h
  · exact h
  · simp at h

/-- An escaped string holds characters of the string and of the two entities. -/
theorem mem_escapeAll (s : List Char) (c : Char) (h : c ∈ escapeAll s) :
    c ∈ s ∨ c ∈ "&lgt;".toList := by
  induction s with
  | nil => simp [escapeAll] at h
  | cons a rest ih =>
    rw [escapeAll_cons, List.mem_append] at h
    rcases h with h | h
    · unfold escapeChar at h
      split at h
      · right; revert h; simp; tauto
      · split at h
        · right; revert h; simp; tauto
        · left; simp at h; simp [h]
    · rcases ih h with h | h
      · left; exact List.mem_cons_of_mem _ h
      · right; exact h

theorem count_lt_xmlEscape (s : List Char) : (xmlEscape s).count '<' = 0 := by
  rw [xmlEscape_eq_escapeAll]
  exact List.count_eq_zero.mpr (not_mem_escapeAll s).1

theorem count_gt_xmlEscape (s : List Char) : (xmlEscape s).count '>' = 0 := by
  rw [xmlEscape_eq_escapeAll]
  exact List.count_eq_zero.mpr (not_mem_escapeAll s).2

theorem count_lt_showNat (n : Nat) : (showNat n).count '<' = 0 :=
  List.count_eq_zero.mpr (fun h => absurd (showNat_mem n _ h) (by decide))

theorem count_gt_showNat (n : Nat) : (showNat n).count '>' = 0 :=
  List.count_eq_zero.mpr (fun h => absurd (showNat_mem n _ h) (by decide))

theorem count_lt_attr (sid : List Char) :
    (if sid = [] then [] else "source_id=\"".toList ++ xmlEscape sid ++ "\"".toList).count '<'
      = 0 := by
  split
  · rfl
  · simp [List.count_append, count_lt_xmlEscape]

theorem count_gt_attr (sid : List Char) :
    (if sid = [] then [] else "source_id=\"".toList ++ xmlEscape sid ++ "\"".toList).count '>'
      = 0 := by
  split
  · rfl
  · simp [List.count_append, count_gt_xmlEscape]

/-! ## Claims on escaping -/

/-- C3, counterexample. Escaping is not lossless on every string: the string
`&lt;` is left as it is by `xmlEscape` and unescapes to `<`, and the two
different names `<` and `&lt;` have the same escaped text. -/
theorem xmlEscape_lossless_counterexample :
    xmlUnescape (xmlEscape "&lt;".toList) = "<".toList
    ∧ xmlUnescape (xmlEscape "&lt;".toList) ≠ "&lt;".toList
    ∧ xmlEscape "<".toList = xmlEscape "&lt;".toList
    ∧ "<".toList ≠ "&lt;".toList := by
  simp only [xmlEscape_eq_escapeAll]
  decide

/-- C3, amended. On the strings in which neither `&lt;` nor `&gt;` occurs,
escaping is lossless: unescaping `xmlEscape s` gives `s` back, and no other
such string has the same escaped text. -/
theorem xmlEscape_lossless_of_no_entity (s : List Char) (h : ¬ hasEntity s) :
    xmlUnescape (xmlEscape s) = s
    ∧ ∀ t : List Char, ¬ hasEntity t → xmlEscape t = xmlEscape s → t = s := by
  have hs : xmlUnescape (xmlEscape s) = s := by
    rw [xmlEscape_eq_escapeAll]; exact (xmlUnescape_escapeAll_iff s).mpr h
  refine ⟨hs, fun t ht e => ?_⟩
  have ht2 : xmlUnescape (xmlEscape t) = t := by
    rw [xmlEscape_eq_escapeAll]; exact (xmlUnescape_escapeAll_iff t).mpr ht
  rw [← ht2, e, hs]

/-- C3, witness: `a&b<c>` holds no entity and is recovered from its escaped
text. -/
theorem xmlEscape_lossless_of_no_entity_witness :
    ¬ hasEntity "a&b<c>".toList
    ∧ xmlUnescape (xmlEscape "a&b<c>".toList) = "a&b<c>".toList :=
  ⟨by decide, (xmlEscape_lossless_of_no_entity "a&b<c>".toList (by decide)).1⟩

namespace TlbExport

/-! ## Angle brackets of the records whose texts are all escaped -/

theorem shape_alias_mk (g : TypeGraph) (stream n sid : List Char) (type : Type_) :
    save g stream ⟨n, sid, true, type⟩
      = (true, stream ++ "  <alias name=\"".toList ++ xmlEscape n
          ++ "\" source=\"".toList ++ xmlEscape type.getName ++ "\"/>\n".toList) :=
  shape_alias g stream ⟨n, sid, true, type⟩ rfl

theorem count_alias (g : TypeGraph) (n sid : List Char) (type : Type_) :
    (save g [] ⟨n, sid, true, type⟩).2.count '<' = 1
    ∧ (save g [] ⟨n, sid, true, type⟩).2.count '>' = 1 := by
  rw [shape_alias_mk]
  constructor <;>
    simp only [List.count_append, count_lt_xmlEscape, count_gt_xmlEscape] <;> rfl

theorem count_opaqueType (g : TypeGraph) (n sid name : List Char) (size : Nat) :
    (save g [] ⟨n, sid, false, ⟨name, size, Variant.OpaqueType⟩⟩).2.count '<' = 1
    ∧ (save g [] ⟨n, sid, false, ⟨name, size, Variant.OpaqueType⟩⟩).2.count '>' = 1 := by
  rw [shape_opaqueType]
  constructor <;>
    simp only [List.count_append, count_lt_xmlEscape, count_gt_xmlEscape, count_lt_showNat,
      count_gt_showNat, count_lt_attr, count_gt_attr] <;> rfl

theorem count_pointer (g : TypeGraph) (n sid name : List Char) (size : Nat)
    (target : TypeRef) :
    (save g [] ⟨n, sid, false, ⟨name, size, Variant.Pointer target⟩⟩).2.count '<' = 1
    ∧ (save g [] ⟨n, sid, false, ⟨name, size, Variant.Pointer target⟩⟩).2.count '>' = 1 := by
  rw [shape_pointer]
  constructor <;>
    simp only [List.count_append, count_lt_xmlEscape, count_gt_xmlEscape, count_lt_showNat,
      count_gt_showNat, count_lt_attr, count_gt_attr] <;> rfl

theorem count_array (g : TypeGraph) (n sid name : List Char) (size : Nat)
    (target : TypeRef) (dimension : Nat) :
    (save g [] ⟨n, sid, false, ⟨name, size, Variant.Array target dimension⟩⟩).2.count '<' = 1
    ∧ (save g [] ⟨n, sid, false,
        ⟨name, size, Variant.Array target dimension⟩⟩).2.count '>' = 1 := by
  rw [shape_array]
  constructor <;>
    simp only [List.count_append, count_lt_xmlEscape, count_gt_xmlEscape, count_lt_showNat,
      count_gt_showNat, count_lt_attr, count_gt_attr] <;> rfl

theorem count_container (g : TypeGraph) (n sid name : List Char) (size : Nat)
    (target : TypeRef) (kind : List Char) :
    (save g [] ⟨n, sid, false, ⟨name, size, Variant.Container target kind⟩⟩).2.count '<' = 1
    ∧ (save g [] ⟨n, sid, false,
        ⟨name, size, Variant.Container target kind⟩⟩).2.count '>' = 1 := by
  rw [shape_container]
  constructor <;>
    simp only [List.count_append, count_lt_xmlEscape, count_gt_xmlEscape, count_lt_showNat,
      count_gt_showNat, count_lt_attr, count_gt_attr] <;> rfl

/-! ## Claims on the records -/

/-- C4, counterexample. The name of a numeric type is written as it is: for
the numeric `a<b` the record holds the name unescaped, and its escaped image
`a&lt;b` does not occur in the record. -/
theorem save_numeric_name_not_escaped :
    (save intGraph []
        ⟨"a<b".toList, [], false, ⟨"a<b".toList, 4, Variant.Numeric NumericCategory.SInt⟩⟩).2
      = "  <numeric name=\"a<b\" category=\"sint\" size=\"4\" />\n".toList
    ∧ xmlEscape "a<b".toList = "a&lt;b".toList
    ∧ ¬ "a&lt;b".toList <:+: (save intGraph []
        ⟨"a<b".toList, [], false,
          ⟨"a<b".toList, 4, Variant.Numeric NumericCategory.SInt⟩⟩).2 := by
  simp only [shape_numeric, xmlEscape_eq_escapeAll]
  decide

/-- C4, amended. The names of aliases and of their targets, the names of
opaque, pointer, array, container and compound types, the names of indirection
targets and of field types, the container kind and the source id are written
as their `xmlEscape` images; the records of aliases and of opaque, pointer,
array and container types hold exactly one `<` and one `>`, those of the
element itself, whatever these texts are. Field names are written as they
are. -/
theorem save_escaped_texts (g : TypeGraph) (stream n sid name kind : List Char)
    (size dimension : Nat) (target : TypeRef) (type : Type_) (fields : List Field) :
    (save g stream ⟨n, sid, true, type⟩
        = (true, stream ++ "  <alias name=\"".toList ++ xmlEscape n
            ++ "\" source=\"".toList ++ xmlEscape type.getName ++ "\"/>\n".toList)
      ∧ (save g [] ⟨n, sid, true, type⟩).2.count '<' = 1
      ∧ (save g [] ⟨n, sid, true, type⟩).2.count '>' = 1)
    ∧ (save g stream ⟨n, sid, false, ⟨name, size, Variant.OpaqueType⟩⟩
        = (true, stream ++ "  <opaque name=\"".toList ++ xmlEscape name
            ++ "\" size=\"".toList ++ showNat size ++ "\" ".toList
            ++ (if sid = [] then []
                else "source_id=\"".toList ++ xmlEscape sid ++ "\"".toList)
            ++ " />\n\n".toList)
      ∧ (save g [] ⟨n, sid, false, ⟨name, size, Variant.OpaqueType⟩⟩).2.count '<' = 1
      ∧ (save g [] ⟨n, sid, false, ⟨name, size, Variant.OpaqueType⟩⟩).2.count '>' = 1)
    ∧ (save g stream ⟨n, sid, false, ⟨name, size, Variant.Pointer target⟩⟩
        = (true, stream ++ "  <pointer  name=\"".toList ++ xmlEscape name
            ++ "\" of=\"".toList ++ xmlEscape (g target).getName ++ "\" ".toList
            ++ (if sid = [] then []
                else "source_id=\"".toList ++ xmlEscape sid ++ "\"".toList)
            ++ "/>\n".toList)
      ∧ (save g [] ⟨n, sid, false, ⟨name, size, Variant.Pointer target⟩⟩).2.count '<' = 1
      ∧ (save g [] ⟨n, sid, false, ⟨name, size, Variant.Pointer target⟩⟩).2.count '>' = 1)
    ∧ (save g stream ⟨n, sid, false, ⟨name, size, Variant.Array target dimension⟩⟩
        = (true, stream ++ "  <array  name=\"".toList ++ xmlEscape name
            ++ "\" of=\"".toList ++ xmlEscape (g target).getName
            ++ "\" dimension=\"".toList ++ showNat dimension ++ "\" ".toList
            ++ (if sid = [] then []
                else "source_id=\"".toList ++ xmlEscape sid ++ "\"".toList)
            ++ "/>\n".toList)
      ∧ (save g [] ⟨n, sid, false,
          ⟨name, size, Variant.Array target dimension⟩⟩).2.count '<' = 1
      ∧ (save g [] ⟨n, sid, false,
          ⟨name, size, Variant.Array target dimension⟩⟩).2.count '>' = 1)
    ∧ (save g stream ⟨n, sid, false, ⟨name, size, Variant.Container target kind⟩⟩
        = (true, stream ++ "  <container  name=\"".toList ++ xmlEscape name
            ++ "\" of=\"".toList ++ xmlEscape (g target).getName
            ++ "\" size=\"".toList ++ showNat size
            ++ "\" kind=\"".toList ++ xmlEscape kind ++ "\" ".toList
            ++ (if sid = [] then []
                else "source_id=\"".toList ++ xmlEscape sid ++ "\"".toList)
            ++ "/>\n".toList)
      ∧ (save g [] ⟨n, sid, false,
          ⟨name, size, Variant.Container target kind⟩⟩).2.count '<' = 1
      ∧ (save g [] ⟨n, sid, false,
          ⟨name, size, Variant.Container target kind⟩⟩).2.count '>' = 1)
    ∧ save g stream ⟨n, sid, false, ⟨name, size, Variant.Compound fields⟩⟩
        = (true, stream ++ "  <compound name=\"".toList ++ xmlEscape name
            ++ "\" size=\"".toList ++ showNat size ++ "\" ".toList
            ++ (if sid = [] then []
                else "source_id=\"".toList ++ xmlEscape sid ++ "\"".toList)
            ++ ">\n".toList
            ++ fields.flatMap (fun field =>
                "    <field name=\"".toList ++ field.m_name
                ++ "\" type=\"".toList ++ xmlEscape (g field.m_type).getName
                ++ "\" offset=\"".toList ++ showNat field.m_offset ++ "\"/>\n".toList)
            ++ "  </compound>\n".toList) := by
  refine ⟨⟨shape_alias_mk g stream n sid type, count_alias g n sid type⟩,
    ⟨?_, count_opaqueType g n sid name size⟩,
    ⟨?_, count_pointer g n sid name size target⟩,
    ⟨?_, count_array g n sid name size target dimension⟩,
    ⟨?_, count_container g n sid name size target kind⟩, ?_⟩
  · rw [shape_opaqueType]; simp
  · rw [shape_pointer]; simp
  · rw [shape_array]; simp
  · rw [shape_container]; simp
  · rw [shape_compound]; simp


/-- C6. For an alias entry `save` writes the single record
`  <alias name="N" source="T"/>` and a newline, with `N` the escaped name of
the alias and `T` the escaped name of the type it stands for, and returns
true; the record holds one element only, and it is the same whatever the type
behind the alias is, as long as that type has the same name. -/
theorem save_alias (g : TypeGraph) (stream : List Char) (it : RegistryIterator)
    (h : it.isAlias = true) :
    save g stream it
      = (true, stream ++ "  <alias name=\"".toList ++ xmlEscape it.getName
          ++ "\" source=\"".toList ++ xmlEscape it.deref.getName ++ "\"/>\n".toList)
    ∧ (save g [] it).2.count '<' = 1
    ∧ ∀ (g2 : TypeGraph) (t2 : Type_), t2.getName = it.deref.getName →
        save g2 stream ⟨it.m_name, it.m_source, true, t2⟩ = save g stream it := by
  obtain ⟨n, sid, al, t⟩ := it
  have hal : al = true := h
  subst hal
  refine ⟨shape_alias_mk g stream n sid t, (count_alias g n sid t).1, fun g2 t2 h2 => ?_⟩
  rw [shape_alias_mk, shape_alias_mk, h2]
  rfl

/-- C6, witness: the alias `B` of the numeric `A` is written as an alias
record with `source="A"`, without a `numeric` element. -/
theorem save_alias_witness :
    RegistryIterator.isAlias
        ⟨"B".toList, [], true, ⟨"A".toList, 4, Variant.Numeric NumericCategory.SInt⟩⟩ = true
    ∧ save intGraph []
        ⟨"B".toList, [], true, ⟨"A".toList, 4, Variant.Numeric NumericCategory.SInt⟩⟩
      = (true, "  <alias name=\"B\" source=\"A\"/>\n".toList)
    ∧ ¬ "<numeric".toList <:+: (save intGraph []
        ⟨"B".toList, [], true, ⟨"A".toList, 4, Variant.Numeric NumericCategory.SInt⟩⟩).2 := by
  have e := (save_alias intGraph []
    ⟨"B".toList, [], true, ⟨"A".toList, 4, Variant.Numeric NumericCategory.SInt⟩⟩ rfl).1
  simp only [xmlEscape_eq_escapeAll] at e
  refine ⟨rfl, ?_, ?_⟩
  · rw [e]; decide
  · rw [e]; decide

/-- C7. The record of a compound with fields `f1 .. fn` is the opening
`compound` element, then one `field` element per field, in declaration order,
the i-th with the name, the escaped type name and the offset of `fi`, then the
closing tag; fields `x` at offset 0 and `y` at offset 4 give two `field`
elements, `x` then `y`. -/
theorem save_compound_fields (g : TypeGraph) (stream n sid name : List Char) (size : Nat)
    (fields : List Field) :
    save g stream ⟨n, sid, false, ⟨name, size, Variant.Compound fields⟩⟩
      = (true, stream ++ "  <compound name=\"".toList ++ xmlEscape name
          ++ "\" size=\"".toList ++ showNat size ++ "\" ".toList
          ++ (if sid = [] then []
              else "source_id=\"".toList ++ xmlEscape sid ++ "\"".toList)
          ++ ">\n".toList
          ++ (fields.map (fun field =>
                "    <field name=\"".toList ++ field.m_name
                ++ "\" type=\"".toList ++ xmlEscape (g field.m_type).getName
                ++ "\" offset=\"".toList ++ showNat field.m_offset
                ++ "\"/>\n".toList)).flatten
          ++ "  </compound>\n".toList)
    ∧ save intGraph [] ⟨"S".toList, [], false, ⟨"S".toList, 8,
          Variant.Compound [⟨"x".toList, 0, 0⟩, ⟨"y".toList, 0, 4⟩]⟩⟩
      = (true, ("  <compound name=\"S\" size=\"8\" >\n"
          ++ "    <field name=\"x\" type=\"int\" offset=\"0\"/>\n"
          ++ "    <field name=\"y\" type=\"int\" offset=\"4\"/>\n"
          ++ "  </compound>\n").toList) := by
  constructor
  · rw [shape_compound, List.flatMap_def]; simp
  · simp only [shape_compound, xmlEscape_eq_escapeAll]
    decide


theorem field_elements_congr (g1 g2 : TypeGraph) (fields1 fields2 : List Field)
    (h : List.Forall₂ (fun f1 f2 : Field => f1.m_name = f2.m_name ∧ f1.m_offset = f2.m_offset
      ∧ (g1 f1.m_type).getName = (g2 f2.m_type).getName) fields1 fields2) :
    fields1.flatMap (fun field =>
        "    ".toList ++ "<field name=\"".toList ++ field.m_name ++ "\"".toList
        ++ " type=\"".toList ++ xmlEscape (g1 field.m_type).getName ++ "\"".toList
        ++ " offset=\"".toList ++ showNat field.m_offset ++ "\"/>\n".toList)
    = fields2.flatMap (fun field =>
        "    ".toList ++ "<field name=\"".toList ++ field.m_name ++ "\"".toList
        ++ " type=\"".toList ++ xmlEscape (g2 field.m_type).getName ++ "\"".toList
        ++ " offset=\"".toList ++ showNat field.m_offset ++ "\"/>\n".toList) := by
  induction h with
  | nil => rfl
  | cons hab _ ih =>
    obtain ⟨h1, h2, h3⟩ := hab
    rw [List.flatMap_cons, List.flatMap_cons, ih, h1, h2, h3]

/-- C8. Referenced types are rendered by name only: two pointers, arrays or
containers that agree on their name and attributes and whose targets have the
same name, and two compounds that agree on name, size and, field by field, on
the name, the offset and the name of the type of the field, have the same
record under the same source id, whatever the referenced types are and whatever
graph they live in. -/
theorem save_by_name (g1 g2 : TypeGraph) (stream n sid : List Char) (t1 t2 : Type_)
    (h : sameByName g1 t1 g2 t2) :
    save g1 stream ⟨n, sid, false, t1⟩ = save g2 stream ⟨n, sid, false, t2⟩ := by
  obtain ⟨name1, size1, v1⟩ := t1
  obtain ⟨name2, size2, v2⟩ := t2
  obtain ⟨hn, hv⟩ := h
  have hn2 : name1 = name2 := hn
  subst hn2
  cases v1 <;> cases v2 <;> simp only [] at hv
  · obtain ⟨hs, hf⟩ := hv
    have hs2 : size1 = size2 := hs
    subst hs2
    rw [shape_compound, shape_compound, field_elements_congr g1 g2 _ _ hf]
  · rw [shape_pointer, shape_pointer, hv]
  · obtain ⟨hd, ht⟩ := hv
    subst hd
    rw [shape_array, shape_array, ht]
  · obtain ⟨hs, hk, ht⟩ := hv
    have hs2 : size1 = size2 := hs
    subst hs2
    subst hk
    rw [shape_container, shape_container, ht]

/-- C8, witness: the self-referential compound `Node` of `listGraph` and a
compound with the same fields in `flatGraph`, where `NodePtr` and `int` are
other types, have the same record. -/
theorem save_by_name_witness :
    sameByName listGraph (listGraph 0)
      flatGraph ⟨"Node".toList, 16,
        Variant.Compound [⟨"value".toList, 2, 0⟩, ⟨"next".toList, 1, 8⟩]⟩
    ∧ save listGraph [] ⟨"Node".toList, "list.h".toList, false, listGraph 0⟩
      = save flatGraph [] ⟨"Node".toList, "list.h".toList, false,
          ⟨"Node".toList, 16,
            Variant.Compound [⟨"value".toList, 2, 0⟩, ⟨"next".toList, 1, 8⟩]⟩⟩ :=
  have h : sameByName listGraph (listGraph 0)
      flatGraph ⟨"Node".toList, 16,
        Variant.Compound [⟨"value".toList, 2, 0⟩, ⟨"next".toList, 1, 8⟩]⟩ :=
    ⟨rfl, rfl, List.Forall₂.cons ⟨rfl, rfl, rfl⟩
      (List.Forall₂.cons ⟨rfl, rfl, rfl⟩ List.Forall₂.nil)⟩
  ⟨h, save_by_name listGraph flatGraph [] _ _ _ _ h⟩

end TlbExport

theorem mem_xmlEscape_newline (s : List Char) (h : '\n' ∉ s) : '\n' ∉ xmlEscape s := by
  rw [xmlEscape_eq_escapeAll]
  intro hm
  rcases mem_escapeAll s _ hm with h1 | h1
  · exact h h1
  · exact absurd h1 (by decide)

/-- A text that starts with `<` does not occur in a record that holds a single
`<`, after its two leading spaces, unless it starts what follows the spaces. -/
theorem not_infix_single_lt (q tail : List Char) (hq : ¬ q <+: tail) (ht : '<' ∉ tail) :
    ¬ ('<' :: q) <:+: (' ' :: ' ' :: '<' :: tail) := by
  intro h
  rcases List.infix_cons_iff.mp h with h | h
  · exact absurd (List.cons_prefix_cons.mp h).1 (by decide)
  · rcases List.infix_cons_iff.mp h with h | h
    · exact absurd (List.cons_prefix_cons.mp h).1 (by decide)
    · rcases List.infix_cons_iff.mp h with h | h
      · exact hq (List.cons_prefix_cons.mp h).2
      · exact ht (h.subset (List.mem_cons_self _ _))

namespace ValueMap

theorem insert_fresh (m : ValueMap) (symbol : List Char) (value : Int)
    (h : symbol ∉ m.entries.map Prod.fst) :
    (m.insert symbol value).entries = m.entries ++ [(symbol, value)] := by
  simp [insert, h]

/-- Enumerators with distinct symbols, inserted one after the other in a table,
are held by the table after the ones it had, in the order of their insertion. -/
theorem foldl_insert (inserted : List (List Char × Int)) :
    ∀ m : ValueMap, (m.entries.map Prod.fst ++ inserted.map Prod.fst).Nodup →
      (inserted.foldl (fun t p => t.insert p.1 p.2) m).entries = m.entries ++ inserted := by
  induction inserted with
  | nil => intro m _; simp
  | cons p rest ih =>
    intro m h
    have hp : p.1 ∉ m.entries.map Prod.fst := by
      intro hm
      have := (List.nodup_append.mp h).2.2
      exact this hm (by simp)
    rw [List.foldl_cons, ih]
    · rw [insert_fresh m p.1 p.2 hp]; simp
    · rw [insert_fresh m p.1 p.2 hp]
      simpa using h

end ValueMap

namespace TlbExport

/-- C9, counterexample. The name of an enum is written as it is, so the record
of an enum without enumerators has an interior newline when its name has one,
and holds `<value` or `</enum>` when its name does; a newline of the source id
is an interior newline of the record too. -/
theorem save_empty_enum_counterexample :
    '\n' ∈ (save intGraph []
        ⟨"e".toList, [], false, ⟨"a\nb".toList, 4, Variant.Enum ValueMap.nil⟩⟩).2.dropLast
    ∧ "<value".toList <:+: (save intGraph []
        ⟨"e".toList, [], false, ⟨"<value".toList, 4, Variant.Enum ValueMap.nil⟩⟩).2
    ∧ "</enum>".toList <:+: (save intGraph []
        ⟨"e".toList, [], false, ⟨"</enum>".toList, 4, Variant.Enum ValueMap.nil⟩⟩).2
    ∧ '\n' ∈ (save intGraph []
        ⟨"e".toList, "a\nb".toList, false,
          ⟨"e".toList, 4, Variant.Enum ValueMap.nil⟩⟩).2.dropLast := by
  refine ⟨by decide, by decide, by decide, ?_⟩
  simp only [shape_enum_empty _ _ _ _ _ _ _ (rfl : ValueMap.nil.empty = true),
    xmlEscape_eq_escapeAll]
  decide

/-- C9, amended. The record of an enum without enumerators is the single
self-closing element `<enum name="N" A/>`, after two spaces and before a
newline, `N` being the name as it is and `A` the provenance attribute; when the
name holds neither `<` nor a newline and the source id holds no newline, the
record holds no `<value`, no `</enum>` and no newline before its last
character. -/
theorem save_empty_enum (g : TypeGraph) (stream n sid name : List Char) (size : Nat)
    (values : ValueMap) (h : values.empty = true) :
    save g stream ⟨n, sid, false, ⟨name, size, Variant.Enum values⟩⟩
      = (true, stream ++ "  <enum name=\"".toList ++ name ++ "\" ".toList
          ++ (if sid = [] then []
              else "source_id=\"".toList ++ xmlEscape sid ++ "\"".toList)
          ++ "/>\n".toList)
    ∧ ('<' ∉ name → '\n' ∉ name → '\n' ∉ sid →
        ¬ "<value".toList <:+:
            (save g [] ⟨n, sid, false, ⟨name, size, Variant.Enum values⟩⟩).2
        ∧ ¬ "</enum>".toList <:+:
            (save g [] ⟨n, sid, false, ⟨name, size, Variant.Enum values⟩⟩).2
        ∧ '\n' ∉ (save g [] ⟨n, sid, false,
            ⟨name, size, Variant.Enum values⟩⟩).2.dropLast) := by
  have hattr_lt : '<' ∉ (if sid = [] then []
      else "source_id=\"".toList ++ xmlEscape sid ++ "\"".toList) := by
    intro hm
    have := count_lt_attr sid
    rw [List.count_eq_zero] at this
    exact this hm
  constructor
  · rw [shape_enum_empty _ _ _ _ _ _ _ h]; simp
  · intro h1 h2 h3
    have hattr_nl : '\n' ∉ (if sid = [] then []
        else "source_id=\"".toList ++ xmlEscape sid ++ "\"".toList) := by
      split
      · simp
      · have := mem_xmlEscape_newline sid h3
        simp only [List.mem_append, not_or]
        exact ⟨⟨by decide, this⟩, by decide⟩
    have shape : (save g [] ⟨n, sid, false, ⟨name, size, Variant.Enum values⟩⟩).2
        = ' ' :: ' ' :: '<' :: ('e' :: ("num name=\"".toList ++ name ++ "\" ".toList
            ++ (if sid = [] then []
                else "source_id=\"".toList ++ xmlEscape sid ++ "\"".toList)
            ++ "/>".toList ++ "\n".toList)) := by
      rw [shape_enum_empty _ _ _ _ _ _ _ h]
      simp only [List.nil_append, List.append_assoc]
      rfl
    have htail : '<' ∉ ('e' :: ("num name=\"".toList ++ name ++ "\" ".toList
            ++ (if sid = [] then []
                else "source_id=\"".toList ++ xmlEscape sid ++ "\"".toList)
            ++ "/>".toList ++ "\n".toList)) := by
      simp only [List.mem_cons, List.mem_append, not_or]
      exact ⟨by decide, ⟨⟨⟨⟨by decide, h1⟩, by decide⟩, hattr_lt⟩, by decide⟩, by decide⟩
    rw [shape]
    refine ⟨?_, ?_, ?_⟩
    · exact not_infix_single_lt _ _
        (fun hp => absurd (List.cons_prefix_cons.mp hp).1 (by decide)) htail
    · exact not_infix_single_lt _ _
        (fun hp => absurd (List.cons_prefix_cons.mp hp).1 (by decide)) htail
    · have e : (' ' :: ' ' :: '<' :: ('e' :: ("num name=\"".toList ++ name ++ "\" ".toList
            ++ (if sid = [] then []
                else "source_id=\"".toList ++ xmlEscape sid ++ "\"".toList)
            ++ "/>".toList ++ "\n".toList))).dropLast
          = ' ' :: ' ' :: '<' :: ('e' :: ("num name=\"".toList ++ name ++ "\" ".toList
            ++ (if sid = [] then []
                else "source_id=\"".toList ++ xmlEscape sid ++ "\"".toList)
            ++ "/>".toList)) := by
        have : ∀ l : List Char, (l ++ "\n".toList).dropLast = l := fun l => by
          show (l ++ ['\n']).dropLast = l
          exact List.dropLast_concat
        exact this (' ' :: ' ' :: '<' :: ('e' :: ("num name=\"".toList ++ name ++ "\" ".toList
            ++ (if sid = [] then []
                else "source_id=\"".toList ++ xmlEscape sid ++ "\"".toList)
            ++ "/>".toList)))
      rw [e]
      simp only [List.mem_cons, List.mem_append, not_or]
      exact ⟨by decide, by decide, by decide, by decide,
        ⟨⟨⟨by decide, h2⟩, by decide⟩, hattr_nl⟩, by decide⟩

/-- C9, witness: the enum `Color` without enumerators, read from `color.h`. -/
theorem save_empty_enum_witness :
    ValueMap.nil.empty = true
    ∧ save intGraph [] ⟨"Color".toList, "color.h".toList, false,
          ⟨"Color".toList, 4, Variant.Enum ValueMap.nil⟩⟩
      = (true, "  <enum name=\"Color\" source_id=\"color.h\"/>\n".toList) := by
  have e := (save_empty_enum intGraph [] "Color".toList "color.h".toList "Color".toList 4
    ValueMap.nil rfl).1
  simp only [xmlEscape_eq_escapeAll] at e
  refine ⟨rfl, ?_⟩
  rw [e]; decide

/-- C10. The record of an enum with at least one enumerator holds, between the
opening `enum` tag and the closing tag, one `value` element per entry of the
value table, in the order of the table; and the table holds enumerators of
distinct symbols in the order of their insertion. -/
theorem save_enum_values (g : TypeGraph) (stream n sid name : List Char) (size : Nat)
    (values : ValueMap) (h : values.empty = false) :
    save g stream ⟨n, sid, false, ⟨name, size, Variant.Enum values⟩⟩
      = (true, stream ++ "  <enum name=\"".toList ++ name ++ "\" ".toList
          ++ (if sid = [] then []
              else "source_id=\"".toList ++ xmlEscape sid ++ "\"".toList)
          ++ ">\n".toList
          ++ (values.entries.map (fun it =>
                "    <value symbol=\"".toList ++ it.1
                ++ "\" value=\"".toList ++ showInt it.2 ++ "\"/>\n".toList)).flatten
          ++ "  </enum>\n".toList)
    ∧ ∀ inserted : List (List Char × Int), (inserted.map Prod.fst).Nodup →
        values = inserted.foldl (fun t p => t.insert p.1 p.2) ValueMap.nil →
        values.entries = inserted := by
  constructor
  · rw [shape_enum_values _ _ _ _ _ _ _ h, List.flatMap_def]; simp
  · intro inserted hnd hv
    rw [hv, ValueMap.foldl_insert inserted ValueMap.nil (by simpa [ValueMap.nil] using hnd)]
    simp [ValueMap.nil]

/-- C10, witness: `RED = 0` inserted before `GREEN = 1` gives the `RED` value
element followed by the `GREEN` one. -/
theorem save_enum_values_witness :
    ((ValueMap.nil.insert "RED".toList 0).insert "GREEN".toList 1).empty = false
    ∧ save intGraph [] ⟨"Color".toList, [], false, ⟨"Color".toList, 4,
          Variant.Enum ((ValueMap.nil.insert "RED".toList 0).insert "GREEN".toList 1)⟩⟩
      = (true, ("  <enum name=\"Color\" >\n"
          ++ "    <value symbol=\"RED\" value=\"0\"/>\n"
          ++ "    <value symbol=\"GREEN\" value=\"1\"/>\n"
          ++ "  </enum>\n").toList) := by
  have e := (save_enum_values intGraph [] "Color".toList [] "Color".toList 4
    ((ValueMap.nil.insert "RED".toList 0).insert "GREEN".toList 1) (by decide)).1
  refine ⟨by decide, ?_⟩
  rw [e]; decide

end TlbExport

/-! ## The iterations of the escaping loop -/

theorem xmlEscapeBody_eq_loop (result : List Char) (pos : Nat)
    (h : find_first_of result "<>".toList = some pos) :
    xmlEscape.loop result = xmlEscape.loop (xmlEscapeBody result pos) := by
  conv_lhs => rw [xmlEscape.loop]
  split
  · rename_i h0; rw [h0] at h; cases h
  · rename_i pos2 h2
    have hp : pos2 = pos := by rw [h2] at h; exact Option.some.inj h
    subst hp
    unfold xmlEscapeBody
    by_cases h1 : result[pos2]? = some '<'
    · rw [dif_pos h1, if_pos h1]
    · rw [dif_neg h1, if_neg h1]
      by_cases h3 : result[pos2]? = some '>'
      · rw [dif_pos h3, if_pos h3]
      · rw [dif_neg h3, if_neg h3]

/-- An iteration of the loop replaces the first `<` or `>` that remains, so it
lowers the number of these characters by exactly one. -/
theorem specials_xmlEscapeBody (result : List Char) (pos : Nat)
    (h : find_first_of result "<>".toList = some pos) :
    specials (xmlEscapeBody result pos) + 1 = specials result := by
  obtain ⟨c, h1, h2, -, h4⟩ := find_first_of_some result _ pos h
  have hc : c = '<' ∨ c = '>' := by simpa using h2
  have e : specials result
      = specials (result.take pos) + (1 + specials (result.drop (pos + 1))) := by
    conv_lhs => rw [h1]
    simp [specials, List.countP_cons, hc]
    omega
  have key : ∀ str, specials str = 0 →
      specials (replace result pos 1 str) + 1 = specials result := by
    intro str hs
    rw [e]
    simp only [replace, specials, List.countP_append] at hs ⊢
    omega
  unfold xmlEscapeBody
  rcases hc with rfl | rfl
  · rw [if_pos h4]; exact key _ (by decide)
  · have hne : ¬ (result[pos]? = some '<') := by rw [h4]; decide
    rw [if_neg hne, if_pos h4]; exact key _ (by decide)

theorem find_first_of_eq_none_iff (result : List Char) :
    find_first_of result "<>".toList = none ↔ specials result = 0 := by
  constructor
  · intro h
    have := find_first_of_none _ _ h
    simp only [specials, List.countP_eq_zero]
    intro c hc
    have := this c hc
    simpa using this
  · intro h
    cases hf : find_first_of result "<>".toList with
    | none => rfl
    | some pos =>
      have := specials_xmlEscapeBody result pos hf
      omega

/-- With fuel for as many iterations as the string has `<` and `>`, the loop
exits with the result of `xmlEscape` after exactly that many iterations. -/
theorem xmlEscapeRun_eq (fuel : Nat) : ∀ result : List Char, specials result ≤ fuel →
    xmlEscapeRun fuel result = some (xmlEscape result, specials result) := by
  induction fuel with
  | zero =>
    intro result h
    have h0 : specials result = 0 := by omega
    have hf := (find_first_of_eq_none_iff result).mpr h0
    simp only [xmlEscapeRun, hf, h0]
    rw [xmlEscape, xmlEscape.loop]
    split
    · rfl
    · rename_i pos hp; rw [hf] at hp; cases hp
  | succ fuel ih =>
    intro result h
    cases hf : find_first_of result "<>".toList with
    | none =>
      have h0 := (find_first_of_eq_none_iff result).mp hf
      simp only [xmlEscapeRun, hf, h0]
      rw [xmlEscape, xmlEscape.loop]
      split
      · rfl
      · rename_i pos hp; rw [hf] at hp; cases hp
    | some pos =>
      have hs := specials_xmlEscapeBody result pos hf
      simp only [xmlEscapeRun, hf]
      rw [ih _ (by omega)]
      simp only [Option.map_some', xmlEscape]
      rw [xmlEscapeBody_eq_loop result pos hf, hs]

/-- With fuel for fewer iterations than the string has `<` and `>`, the loop
has not exited. -/
theorem xmlEscapeRun_none (fuel : Nat) : ∀ result : List Char, fuel < specials result →
    xmlEscapeRun fuel result = none := by
  induction fuel with
  | zero =>
    intro result h
    cases hf : find_first_of result "<>".toList with
    | none =>
      have := (find_first_of_eq_none_iff result).mp hf
      omega
    | some pos => simp only [xmlEscapeRun, hf]
  | succ fuel ih =>
    intro result h
    cases hf : find_first_of result "<>".toList with
    | none =>
      have := (find_first_of_eq_none_iff result).mp hf
      omega
    | some pos =>
      have hs := specials_xmlEscapeBody result pos hf
      simp only [xmlEscapeRun, hf]
      rw [ih _ (by omega)]
      rfl

/-- C14. The escaping loop terminates on every string: an iteration replaces
the first remaining `<` or `>` by a text without them, which lowers the number
of these characters by one; run with any bound on its iterations that is at
least the number of `<` and `>` of the input, the loop exits with the result
of `xmlEscape` after exactly that number of iterations, and it has not exited
under a smaller bound. -/
theorem xmlEscape_iterations (s : List Char) :
    (∀ result pos, find_first_of result "<>".toList = some pos →
      (∃ c, (c = '<' ∨ c = '>') ∧ result[pos]? = some c
        ∧ ∀ d ∈ result.take pos, d ≠ '<' ∧ d ≠ '>')
      ∧ specials (xmlEscapeBody result pos) + 1 = specials result)
    ∧ (∀ fuel, specials s ≤ fuel →
        xmlEscapeRun fuel s = some (xmlEscape s, s.count '<' + s.count '>'))
    ∧ (∀ fuel, fuel < specials s → xmlEscapeRun fuel s = none)
    ∧ specials s = s.count '<' + s.count '>' := by
  have hcount : ∀ l : List Char, specials l = l.count '<' + l.count '>' := by
    intro l
    induction l with
    | nil => rfl
    | cons a rest ih =>
      have hs : specials (a :: rest)
          = specials rest + (if a = '<' ∨ a = '>' then 1 else 0) := by
        simp [specials, List.countP_cons]
      have h1 : (a :: rest).count '<' = rest.count '<' + (if a = '<' then 1 else 0) := by
        simp [List.count_cons]
      have h2 : (a :: rest).count '>' = rest.count '>' + (if a = '>' then 1 else 0) := by
        simp [List.count_cons]
      rw [hs, h1, h2, ih]
      by_cases e1 : a = '<'
      · subst e1; simp; omega
      · by_cases e2 : a = '>'
        · subst e2; simp; omega
        · simp [e1, e2]
  refine ⟨fun result pos h => ⟨?_, specials_xmlEscapeBody result pos h⟩,
    fun fuel h => ?_, fun fuel h => xmlEscapeRun_none fuel s h, hcount s⟩
  · obtain ⟨c, -, h2, h3, h4⟩ := find_first_of_some result _ pos h
    refine ⟨c, by simpa using h2, h4, fun d hd => ?_⟩
    simpa using h3 d hd
  · rw [xmlEscapeRun_eq fuel s h, hcount]

/-- C14, witness: `vector<int>` has two such characters; the loop exits after
two iterations and not before. -/
theorem xmlEscape_iterations_witness :
    xmlEscapeRun 2 "vector<int>".toList = some ("vector&lt;int&gt;".toList, 2)
    ∧ xmlEscapeRun 1 "vector<int>".toList = none := by
  have h := xmlEscape_iterations "vector<int>".toList
  refine ⟨?_, h.2.2.1 1 (by decide)⟩
  rw [h.2.1 2 (by decide), xmlEscape_eq_escapeAll]
  decide

/-- C19. `xmlEscape` is idempotent, and it leaves a string without `<` and `>`
as it is. -/
theorem xmlEscape_idempotent (s : List Char) :
    xmlEscape (xmlEscape s) = xmlEscape s
    ∧ ('<' ∉ s ∧ '>' ∉ s → xmlEscape s = s) := by
  have clean : ∀ t : List Char, '<' ∉ t ∧ '>' ∉ t → xmlEscape t = t := by
    intro t ht
    rw [xmlEscape_eq_escapeAll]
    apply escapeAll_of_clean
    intro d hd hm
    have : d = '<' ∨ d = '>' := by simpa using hm
    rcases this with rfl | rfl
    · exact ht.1 hd
    · exact ht.2 hd
  refine ⟨clean _ ?_, clean s⟩
  rw [xmlEscape_eq_escapeAll]
  exact not_mem_escapeAll s

/-- C19, witness: `a&b` has neither `<` nor `>` and is left as it is, and the
escaped text of `vector<int>` is not changed by a second escaping. -/
theorem xmlEscape_idempotent_witness :
    ('<' ∉ "a&b".toList ∧ '>' ∉ "a&b".toList)
    ∧ xmlEscape "a&b".toList = "a&b".toList
    ∧ xmlEscape (xmlEscape "vector<int>".toList) = xmlEscape "vector<int>".toList :=
  ⟨by decide, (xmlEscape_idempotent "a&b".toList).2 (by decide),
    (xmlEscape_idempotent "vector<int>".toList).1⟩

namespace TlbExport

/-! ## The bytes of the records -/

end TlbExport

namespace TlbExport

/-! ## The exporter and the registry -/

/-- What `save` does to a stream is to append the record of the entry, and its
result is true. -/
theorem save_eq_record (g : TypeGraph) (stream : List Char) (it : RegistryIterator) :
    save g stream it = (true, stream ++ record g it) := by
  obtain ⟨n, sid, al, name, size, variant⟩ := it
  cases al with
  | true =>
    rw [record, shape_alias_mk, shape_alias_mk]
    simp only [List.nil_append, List.append_assoc]
  | false =>
    cases variant with
    | NullType =>
      rw [record, shape_null, shape_null]; simp only [List.nil_append, List.append_assoc]
    | Numeric category =>
      rw [record, shape_numeric, shape_numeric]
      simp only [List.nil_append, List.append_assoc]
    | Enum values =>
      cases h : values.empty with
      | true =>
        rw [record, shape_enum_empty _ _ _ _ _ _ _ h, shape_enum_empty _ _ _ _ _ _ _ h]
        simp only [List.nil_append, List.append_assoc]
      | false =>
        rw [record, shape_enum_values _ _ _ _ _ _ _ h, shape_enum_values _ _ _ _ _ _ _ h]
        simp only [List.nil_append, List.append_assoc]
    | Compound fields =>
      rw [record, shape_compound, shape_compound]
      simp only [List.nil_append, List.append_assoc]
    | Pointer target =>
      rw [record, shape_pointer, shape_pointer]
      simp only [List.nil_append, List.append_assoc]
    | Array target dimension =>
      rw [record, shape_array, shape_array]
      simp only [List.nil_append, List.append_assoc]
    | Container target kind =>
      rw [record, shape_container, shape_container]
      simp only [List.nil_append, List.append_assoc]
    | OpaqueType =>
      rw [record, shape_opaqueType, shape_opaqueType]
      simp only [List.nil_append, List.append_assoc]

theorem foldl_save (g : TypeGraph) (registry : Registry) : ∀ stream : List Char,
    registry.foldl (fun out type => (save g out type).2) stream
      = stream ++ (registry.map (record g)).flatten := by
  induction registry with
  | nil => intro stream; simp
  | cons it rest ih =>
    intro stream
    rw [List.foldl_cons, ih, save_eq_record]
    simp

/-- C12, counterexample. The pointer `p` refers to a type named `missing`, a
name that no entry of the registry has; `save` returns true and writes a
pointer record that names the missing target. -/
theorem save_dangling_pointer_counterexample :
    (missingGraph 0).getName ∉ pointerRegistry.map RegistryIterator.getName
    ∧ save missingGraph [] ⟨"p".toList, [], false, ⟨"p".toList, 8, Variant.Pointer 0⟩⟩
      = (true, "  <pointer  name=\"p\" of=\"missing\" />\n".toList) := by
  refine ⟨by decide, ?_⟩
  simp only [shape_pointer, xmlEscape_eq_escapeAll]
  decide

/-- C12, amended. `save` does not consult the registry: for a pointer whose
target has a name that no entry of the registry has, it returns true and
writes the pointer record that names the target; and it returns true for
every entry. -/
theorem save_dangling_pointer (g : TypeGraph) (registry : Registry)
    (stream n sid name : List Char) (size : Nat) (target : TypeRef)
    (_h : (g target).getName ∉ registry.map RegistryIterator.getName) :
    save g stream ⟨n, sid, false, ⟨name, size, Variant.Pointer target⟩⟩
      = (true, stream ++ "  <pointer  name=\"".toList ++ xmlEscape name
          ++ "\" of=\"".toList ++ xmlEscape (g target).getName ++ "\" ".toList
          ++ (if sid = [] then []
              else "source_id=\"".toList ++ xmlEscape sid ++ "\"".toList)
          ++ "/>\n".toList)
    ∧ ∀ it : RegistryIterator, (save g stream it).1 = true := by
  constructor
  · rw [shape_pointer]; simp
  · intro it; rw [save_eq_record]

/-- C12, witness: the registry whose only entry is the pointer `p` to the type
named `missing`. -/
theorem save_dangling_pointer_witness :
    (missingGraph 0).getName ∉ pointerRegistry.map RegistryIterator.getName
    ∧ (save missingGraph [] ⟨"p".toList, [], false,
        ⟨"p".toList, 8, Variant.Pointer 0⟩⟩).1 = true :=
  ⟨by decide, by
    rw [(save_dangling_pointer missingGraph pointerRegistry [] "p".toList [] "p".toList 8 0
      (by decide)).1]⟩

/-- C13. The framing of the document does not depend on the registry: `begin`
writes the two lines `<?xml version="1.0"?>` and `<typelib>`, `end` writes the
line `</typelib>`; the export of a registry is the header, the records of the
entries in enumeration order, and the footer, and the export of the empty
registry is these three lines. -/
theorem document_framing (g : TypeGraph) (stream : List Char) (registry : Registry) :
    begin stream registry = stream ++ "<?xml version=\"1.0\"?>\n<typelib>\n".toList
    ∧ end_ stream registry = stream ++ "</typelib>\n".toList
    ∧ exportRegistry g stream registry
        = stream ++ "<?xml version=\"1.0\"?>\n<typelib>\n".toList
          ++ (registry.map (fun it => (save g [] it).2)).flatten
          ++ "</typelib>\n".toList
    ∧ exportRegistry g [] []
        = "<?xml version=\"1.0\"?>\n<typelib>\n</typelib>\n".toList := by
  refine ⟨rfl, rfl, ?_, rfl⟩
  rw [exportRegistry, foldl_save]
  rfl

end TlbExport

namespace TlbExportVisitor

/-- C18. The visits that nest leave the indentation as they found it: after
`visit_` of a compound or of an enum, `m_indent` has the value it had before;
the field and value elements are written with that indentation followed by
two spaces, the closing tag with that indentation itself. Under `save`, whose
base indentation is two spaces, the inner elements are indented by four spaces
and the closing tag by two. -/
theorem visit_restores_indent (g : TypeGraph) (v : TlbExportVisitor) (type : Type_)
    (fields : List Field) (values : ValueMap) (value : List Char × Int)
    (rest : List (List Char × Int)) (stream n sid : List Char) :
    (v.visit_Compound g type fields).2.m_indent = v.m_indent
    ∧ (v.visit_Compound g type fields).2.m_stream
        = v.m_stream ++ "<compound name=\"".toList ++ xmlEscape type.getName
          ++ "\" size=\"".toList ++ showNat type.getSize ++ "\" ".toList
          ++ v.emitSourceID ++ ">\n".toList
          ++ fields.flatMap (fun field =>
              (v.m_indent ++ "  ".toList) ++ "<field name=\"".toList ++ field.m_name
              ++ "\" type=\"".toList ++ xmlEscape (g field.m_type).getName
              ++ "\" offset=\"".toList ++ showNat field.m_offset ++ "\"/>\n".toList)
          ++ v.m_indent ++ "</compound>".toList
    ∧ (v.visit_Enum type values).2.m_indent = v.m_indent
    ∧ (v.visit_Enum type ⟨value :: rest⟩).2.m_stream
        = v.m_stream ++ "<enum name=\"".toList ++ type.getName ++ "\" ".toList
          ++ v.emitSourceID ++ ">\n".toList
          ++ (value :: rest).flatMap (fun it =>
              (v.m_indent ++ "  ".toList) ++ "<value symbol=\"".toList ++ it.1
              ++ "\" value=\"".toList ++ showInt it.2 ++ "\"/>\n".toList)
          ++ v.m_indent ++ "</enum>".toList
    ∧ (TlbExport.save g stream ⟨n, sid, false, ⟨type.getName, type.getSize,
          Variant.Compound fields⟩⟩).2
        = stream ++ "  <compound name=\"".toList ++ xmlEscape type.getName
          ++ "\" size=\"".toList ++ showNat type.getSize ++ "\" ".toList
          ++ (if sid = [] then []
              else "source_id=\"".toList ++ xmlEscape sid ++ "\"".toList)
          ++ ">\n".toList
          ++ fields.flatMap (fun field =>
              "    <field name=\"".toList ++ field.m_name
              ++ "\" type=\"".toList ++ xmlEscape (g field.m_type).getName
              ++ "\" offset=\"".toList ++ showNat field.m_offset ++ "\"/>\n".toList)
          ++ "  </compound>\n".toList
    ∧ (TlbExport.save g stream ⟨n, sid, false, ⟨type.getName, type.getSize,
          Variant.Enum ⟨value :: rest⟩⟩⟩).2
        = stream ++ "  <enum name=\"".toList ++ type.getName ++ "\" ".toList
          ++ (if sid = [] then []
              else "source_id=\"".toList ++ xmlEscape sid ++ "\"".toList)
          ++ ">\n".toList
          ++ (value :: rest).flatMap (fun it =>
              "    <value symbol=\"".toList ++ it.1
              ++ "\" value=\"".toList ++ showInt it.2 ++ "\"/>\n".toList)
          ++ "  </enum>\n".toList := by
  refine ⟨?_, ?_, ?_, ?_, ?_, ?_⟩
  · simp [visit_Compound, visitFields_eq, put, indent, unindent]
  · simp [visit_Compound, visitFields_eq, put, indent, unindent, emitSourceID]
  · cases h : values.empty <;>
      simp [visit_Enum, h, putValues_eq, put, indent, unindent]
  · simp [visit_Enum, ValueMap.empty, putValues_eq, put, indent, unindent, emitSourceID]
  · rw [TlbExport.shape_compound]; simp
  · rw [TlbExport.shape_enum_values g stream n sid type.getName type.getSize
      ⟨value :: rest⟩ rfl]
    simp

end TlbExportVisitor

/-! ## Lines of the leaf records -/

theorem count_nl_xmlEscape (s : List Char) (h : '\n' ∉ s) : (xmlEscape s).count '\n' = 0 :=
  List.count_eq_zero.mpr (mem_xmlEscape_newline s h)

theorem count_nl_showNat (n : Nat) : (showNat n).count '\n' = 0 :=
  List.count_eq_zero.mpr (fun h => absurd (showNat_mem n _ h) (by decide))

theorem count_nl_attr (sid : List Char) (h : '\n' ∉ sid) :
    (if sid = [] then [] else "source_id=\"".toList ++ xmlEscape sid ++ "\"".toList).count '\n'
      = 0 := by
  split
  · rfl
  · simp only [List.count_append, count_nl_xmlEscape sid h]; rfl

theorem count_nl_category (category : NumericCategory) :
    ((getStringCategory category).getD []).count '\n' = 0 := by
  cases category <;> rfl

/-- Two spaces, an element that starts with `<` and holds no newline, and a
newline make one line. -/
theorem oneLine_of_body (body : List Char) (h : body.count '\n' = 0) :
    oneLine ("  ".toList ++ '<' :: body ++ "\n".toList) := by
  refine ⟨⟨body ++ "\n".toList, by simp⟩, ?_, ?_⟩
  · simp only [List.count_append, List.count_cons, h]; rfl
  · show (("  ".toList ++ '<' :: body) ++ ['\n']).getLast? = some '\n'
    rw [List.getLast?_append]
    rfl

namespace TlbExport

/-- The records of the leaf types other than the opaque ones are one line
each, when the texts written in them hold no newline. -/
theorem leaf_records_one_line (g : TypeGraph) (n sid name kind : List Char)
    (size dimension : Nat) (target : TypeRef) (category : NumericCategory)
    (hname : '\n' ∉ name) (hsid : '\n' ∉ sid) (hkind : '\n' ∉ kind)
    (htarget : '\n' ∉ (g target).getName) :
    oneLine (save g [] ⟨n, sid, false, ⟨name, size, Variant.Numeric category⟩⟩).2
    ∧ oneLine (save g [] ⟨n, sid, false, ⟨name, size, Variant.NullType⟩⟩).2
    ∧ oneLine (save g [] ⟨n, sid, false, ⟨name, size, Variant.Pointer target⟩⟩).2
    ∧ oneLine (save g [] ⟨n, sid, false, ⟨name, size, Variant.Array target dimension⟩⟩).2
    ∧ oneLine (save g [] ⟨n, sid, false, ⟨name, size, Variant.Container target kind⟩⟩).2
    ∧ oneLine (save g [] ⟨n, sid, false, ⟨name, size, Variant.Enum ⟨[]⟩⟩⟩).2 := by
  have h1 := List.count_eq_zero.mpr hname
  have h2 := count_nl_xmlEscape name hname
  have h3 := count_nl_xmlEscape kind hkind
  have h4 := count_nl_xmlEscape _ htarget
  have h5 := count_nl_attr sid hsid
  refine ⟨?_, ?_, ?_, ?_, ?_, ?_⟩
  · rw [shape_numeric]
    have e := oneLine_of_body ("numeric name=\"".toList ++ name ++ "\" ".toList
          ++ "category=\"".toList ++ (getStringCategory category).getD [] ++ "\" ".toList
          ++ "size=\"".toList ++ showNat size ++ "\" ".toList
          ++ (if sid = [] then [] else "source_id=\"".toList ++ xmlEscape sid ++ "\"".toList)
          ++ "/>".toList) (by
        simp only [List.count_append, h1, h5, count_nl_category, count_nl_showNat]; rfl)
    simpa using e
  · rw [shape_null]
    have e := oneLine_of_body ("null ".toList ++ " name=\"".toList ++ name
          ++ "\" ".toList
          ++ (if sid = [] then [] else "source_id=\"".toList ++ xmlEscape sid ++ "\"".toList)
          ++ "/>".toList) (by
        simp only [List.count_append, h1, h5]; rfl)
    simpa using e
  · rw [shape_pointer]
    have e := oneLine_of_body ("pointer ".toList ++ " name=\"".toList
          ++ xmlEscape name ++ "\" of=\"".toList ++ xmlEscape (g target).getName
          ++ "\"".toList ++ " ".toList
          ++ (if sid = [] then [] else "source_id=\"".toList ++ xmlEscape sid ++ "\"".toList)
          ++ "/>".toList) (by
        simp only [List.count_append, h2, h4, h5]; rfl)
    simpa using e
  · rw [shape_array]
    have e := oneLine_of_body ("array ".toList ++ " name=\"".toList
          ++ xmlEscape name ++ "\" of=\"".toList ++ xmlEscape (g target).getName
          ++ "\"".toList ++ " dimension=\"".toList ++ showNat dimension ++ "\" ".toList
          ++ (if sid = [] then [] else "source_id=\"".toList ++ xmlEscape sid ++ "\"".toList)
          ++ "/>".toList) (by
        simp only [List.count_append, h2, h4, h5, count_nl_showNat]; rfl)
    simpa using e
  · rw [shape_container]
    have e := oneLine_of_body ("container ".toList ++ " name=\"".toList
          ++ xmlEscape name ++ "\" of=\"".toList ++ xmlEscape (g target).getName
          ++ "\"".toList ++ " size=\"".toList ++ showNat size ++ "\"".toList
          ++ " kind=\"".toList ++ xmlEscape kind ++ "\"".toList ++ " ".toList
          ++ (if sid = [] then [] else "source_id=\"".toList ++ xmlEscape sid ++ "\"".toList)
          ++ "/>".toList) (by
        simp only [List.count_append, h2, h3, h4, h5, count_nl_showNat]; rfl)
    simpa using e
  · rw [shape_enum_empty g [] n sid name size ⟨[]⟩ rfl]
    have e := oneLine_of_body ("enum name=\"".toList ++ name ++ "\" ".toList
          ++ (if sid = [] then [] else "source_id=\"".toList ++ xmlEscape sid ++ "\"".toList)
          ++ "/>".toList) (by
        simp only [List.count_append, h1, h5]; rfl)
    simpa using e

/-- C20, the opaque record. The record of an opaque type ends with two
newlines, the one that `visit_` writes after the element and the one that
`save` adds: it is not one line, whereas the records of the other leaf types
are. -/
theorem save_opaque_two_newlines (g : TypeGraph) (stream n sid name : List Char)
    (size : Nat) :
    save g stream ⟨n, sid, false, ⟨name, size, Variant.OpaqueType⟩⟩
      = (true, stream ++ "  <opaque name=\"".toList ++ xmlEscape name
          ++ "\" size=\"".toList ++ showNat size ++ "\" ".toList
          ++ (if sid = [] then []
              else "source_id=\"".toList ++ xmlEscape sid ++ "\"".toList)
          ++ " />\n\n".toList)
    ∧ (save intGraph [] ⟨"o".toList, [], false, ⟨"o".toList, 4, Variant.OpaqueType⟩⟩).2
      = "  <opaque name=\"o\" size=\"4\"  />\n\n".toList
    ∧ (save intGraph [] ⟨"o".toList, [], false,
        ⟨"o".toList, 4, Variant.OpaqueType⟩⟩).2.count '\n' = 2
    ∧ ¬ oneLine (save intGraph [] ⟨"o".toList, [], false,
        ⟨"o".toList, 4, Variant.OpaqueType⟩⟩).2 := by
  refine ⟨?_, ?_, ?_, ?_⟩
  · rw [shape_opaqueType]; simp
  · simp only [shape_opaqueType, xmlEscape_eq_escapeAll]; decide
  · simp only [shape_opaqueType, xmlEscape_eq_escapeAll]; decide
  · simp only [shape_opaqueType, xmlEscape_eq_escapeAll, oneLine]; decide

end TlbExport

/-! ## The `genom` plugin -/

theorem tokenize_go_eq (sep : Char) (l : List Char) : ∀ token : List Char,
    tokenize.go sep l token
      = (List.splitOnP.go (fun c => c == sep) l token.reverse).filter
          (fun t => !t.isEmpty) := by
  induction l with
  | nil =>
    intro token
    cases token <;> simp [tokenize.go, List.splitOnP.go]
  | cons c rest ih =>
    intro token
    by_cases hc : c = sep
    · subst hc
      cases token with
      | nil => simp [tokenize.go, List.splitOnP.go, ih]
      | cons a t => simp [tokenize.go, List.splitOnP.go, ih]
    · simp [tokenize.go, List.splitOnP.go, hc, ih]

/-- The tokens of the tokenizer are the non-empty pieces between the
separators. -/
theorem tokenize_eq_splitOn (sep : Char) (s : List Char) :
    tokenize sep s = (s.splitOn sep).filter (fun t => !t.isEmpty) := by
  rw [tokenize, tokenize_go_eq]
  rfl

namespace GenomPlugin

/-- C16. `apply` returns true exactly when the list of remaining arguments is
not empty, the preprocessing of its first element gives a non-empty path and
the reader throws nothing on that path; when the list is empty or the
preprocessing gives the empty string, it returns false, leaves the registry as
it is and does not depend on the reader. -/
theorem apply_true_iff {R : Type} (preprocess : List Char → List (List Char) → List Char)
    (getCount : R → Nat) (read : List Char → R → Option Exception × R)
    (remaining : List (List Char)) (includes : List Char) (s : GenomState R) :
    ((apply preprocess getCount read remaining includes s).1 = Outcome.returned true
      ↔ ∃ file rest, remaining = file :: rest
          ∧ preprocess file (cppargs includes) ≠ []
          ∧ (read (preprocess file (cppargs includes)) s.registry).1 = none)
    ∧ ((remaining = [] ∨ ∃ file rest, remaining = file :: rest
          ∧ preprocess file (cppargs includes) = []) →
        (apply preprocess getCount read remaining includes s).1 = Outcome.returned false
        ∧ (apply preprocess getCount read remaining includes s).2.registry = s.registry
        ∧ (apply preprocess getCount read remaining includes s).2.cout = s.cout
        ∧ ∀ (getCount2 : R → Nat) (read2 : List Char → R → Option Exception × R),
            apply preprocess getCount2 read2 remaining includes s
              = apply preprocess getCount read remaining includes s) := by
  cases remaining with
  | nil =>
    refine ⟨⟨fun h => ?_, fun h => ?_⟩, fun _ => ⟨rfl, rfl, rfl, fun _ _ => rfl⟩⟩
    · simp [apply] at h
    · obtain ⟨_, _, h, _⟩ := h
      cases h
  | cons file rest =>
    by_cases hp : preprocess file (cppargs includes) = []
    · refine ⟨⟨fun h => ?_, fun h => ?_⟩, fun _ => ?_⟩
      · simp [apply, hp] at h
      · obtain ⟨f, r, h1, h2, _⟩ := h
        cases h1
        exact absurd hp h2
      · refine ⟨?_, ?_, ?_, fun _ _ => ?_⟩ <;> simp [apply, hp]
    · have hne : (preprocess file (cppargs includes)).isEmpty = false := by
        cases h : preprocess file (cppargs includes) with
        | nil => exact absurd h hp
        | cons _ _ => rfl
      refine ⟨⟨fun h => ⟨file, rest, rfl, hp, ?_⟩, fun h => ?_⟩, fun h => ?_⟩
      · simp only [apply, hne] at h
        rcases hr : read (preprocess file (cppargs includes)) s.registry with ⟨e, r⟩
        rw [hr] at h
        cases e with
        | none => rfl
        | some e => cases e <;> simp at h
      · obtain ⟨f, r, h1, _, h3⟩ := h
        cases h1
        simp only [apply, hne]
        rcases hr : read (preprocess file (cppargs includes)) s.registry with ⟨e, r2⟩
        rw [hr] at h3
        simp only at h3
        subst h3
        rfl
      · rcases h with h | ⟨f, r, h1, h2⟩
        · cases h
        · cases h1
          exact absurd h2 hp

/-- C16, witness: with one file whose preprocessing succeeds and a reader that
throws nothing, `apply` returns true; without file it returns false. -/
theorem apply_true_iff_witness :
    (apply suffixPreprocess id threeTypesRead ["a.h".toList] "inc".toList
        ⟨0, [], []⟩).1 = Outcome.returned true
    ∧ (apply suffixPreprocess id threeTypesRead [] "inc".toList
        ⟨0, [], []⟩).1 = Outcome.returned false :=
  ⟨(apply_true_iff suffixPreprocess id threeTypesRead ["a.h".toList] "inc".toList
      ⟨0, [], []⟩).1.mpr ⟨"a.h".toList, [], rfl, by decide, rfl⟩,
   ((apply_true_iff suffixPreprocess id threeTypesRead [] "inc".toList
      ⟨0, [], []⟩).2 (Or.inl rfl)).1⟩

/-- C17. The arguments of the preprocessor are `-I` followed by each non-empty
piece of the `include` option between `:` characters, in order; there is none
for the empty option; `a:b` gives `-Ia` and `-Ib`, and so does `:a::b:`. The
call of `preprocess` by `apply` is on the first file and this list: with a
preprocessor that fails on one file and one argument list only and a reader
that throws nothing, `apply` returns false when that file is the first file
and that list is this list, and true otherwise; and `apply` depends on
`preprocess` through its value on the first file and this list only. -/
theorem cppargs_split {R : Type} (includes : List Char)
    (preprocess : List Char → List (List Char) → List Char)
    (getCount : R → Nat) (read : List Char → R → Option Exception × R)
    (file : List Char) (rest : List (List Char)) (s : GenomState R) :
    cppargs includes
      = ((includes.splitOn ':').filter (fun t => !t.isEmpty)).map
          (fun t => '-' :: 'I' :: t)
    ∧ cppargs [] = []
    ∧ cppargs "a:b".toList = ["-Ia".toList, "-Ib".toList]
    ∧ cppargs ":a::b:".toList = ["-Ia".toList, "-Ib".toList]
    ∧ apply preprocess getCount read (file :: rest) includes s
      = apply (fun _ _ => preprocess file (cppargs includes)) getCount read
          (file :: rest) includes s
    ∧ ∀ (probeFile : List Char) (probeArgs : List (List Char)),
        (apply (fun f args => if f = probeFile ∧ args = probeArgs then [] else ['i'])
            getCount (fun _ registry => (none, registry)) (file :: rest) includes s).1
          = if file = probeFile ∧ cppargs includes = probeArgs then Outcome.returned false
            else Outcome.returned true := by
  refine ⟨?_, rfl, by decide, by decide, rfl, fun probeFile probeArgs => ?_⟩
  · cases includes with
    | nil => simp [cppargs, List.splitOn, List.splitOnP, List.splitOnP.go]
    | cons c t =>
      simp only [cppargs, List.isEmpty_cons, Bool.false_eq_true, not_false_eq_true, if_true,
        tokenize_eq_splitOn]
      rfl
  · by_cases h : file = probeFile ∧ cppargs includes = probeArgs
    · simp [apply, h]
    · simp [apply, h]

/-- C17, the call observed: the include option `a:b` and the file `m.gen`. The
preprocessor that fails on `m.gen` with `-Ia`, `-Ib` makes `apply` return
false; the one that fails on `m.gen` with `-Ia:b` does not. -/
theorem cppargs_split_witness :
    (apply (fun f args => if f = "m.gen".toList ∧ args = ["-Ia".toList, "-Ib".toList]
          then [] else ['i'])
        id (fun _ registry => (none, registry)) ["m.gen".toList] "a:b".toList
        (⟨0, [], []⟩ : GenomState Nat)).1 = Outcome.returned false
    ∧ (apply (fun f args => if f = "m.gen".toList ∧ args = ["-Ia:b".toList]
          then [] else ['i'])
        id (fun _ registry => (none, registry)) ["m.gen".toList] "a:b".toList
        (⟨0, [], []⟩ : GenomState Nat)).1 = Outcome.returned true := by
  have h := (cppargs_split "a:b".toList (fun _ _ => []) id
    (fun _ (registry : Nat) => (none, registry)) "m.gen".toList [] ⟨0, [], []⟩).2.2.2.2.2
  refine ⟨?_, ?_⟩
  · rw [h]; decide
  · rw [h]; decide

end GenomPlugin

/-! ## Occurrences of the provenance attribute -/

namespace TlbExport

end TlbExport

namespace TlbExport

end TlbExport

end Typelib
